import Mathlib

/-!
Shallow embedding of the geometry / physics / optimization core of the
go-kart racing-line finder (src/go_kart_racing_line_finder_single_file_react_app.jsx).

JavaScript floating-point numbers are modelled as real numbers; `Math.hypot`
is `Real.sqrt` of the sum of squares, `Math.round` is Mathlib's `round`
(round half towards positive infinity, matching JS), and the JS idiom
`expr || 1` on a numeric expression is modelled as `if expr = 0 then 1 else expr`.
Out-of-range JS array reads are totalized with `List.getD` at a default value;
theorems that depend on an indexed read carry in-range hypotheses.
-/

open Classical

/-- A 2-D point, as the `{x, y}` objects of the source. -/
structure Pt where
  x : ℝ
  y : ℝ

instance : Inhabited Pt := ⟨⟨0, 0⟩⟩

/-- `Math.hypot a b`. -/
noncomputable def hypot (a b : ℝ) : ℝ := Real.sqrt (a ^ 2 + b ^ 2)

/-- `distance(a,b)` of the source (line 127). -/
noncomputable def distance (a b : Pt) : ℝ := hypot (a.x - b.x) (a.y - b.y)

/-- Cumulative arc-length array of `resamplePath` (the `d` array), tail part:
starting from an accumulated length `acc` at the previous vertex `prev`. -/
noncomputable def cumFrom (acc : ℝ) (prev : Pt) : List Pt → List ℝ
  | [] => []
  | p :: ps => (acc + distance p prev) :: cumFrom (acc + distance p prev) p ps

/-- The cumulative-distance array `d` built by `resamplePath`: `d[0] = 0`,
`d[i] = d[i-1] + distance(pts[i], pts[i-1])`. -/
noncomputable def cumDist : List Pt → List ℝ
  | [] => []
  | p :: ps => 0 :: cumFrom 0 p ps

/-- The `while(j<d.length-1 && d[j+1]<t) j++;` lookup loop of `resamplePath`,
started at index `j`. -/
noncomputable def findSegAux (d : List ℝ) (t : ℝ) (j : ℕ) : ℕ :=
  if j < d.length - 1 ∧ d.getD (j + 1) 0 < t then findSegAux d t (j + 1) else j
termination_by d.length - j
decreasing_by omega

/-- `resamplePath(pts, spacing)` (line 128).  Note the output loop runs
`for(i=0; i<=n; i++)`, producing `n+1` points. -/
noncomputable def resamplePath (pts : List Pt) (spacing : ℝ) : List Pt :=
  if pts.length < 2 then pts else
  let d := cumDist pts
  let total := d.getLastD 0
  let n : ℕ := (max 2 (round (total / spacing))).toNat
  (List.range (n + 1)).map (fun (i : ℕ) =>
    let t := ((i : ℝ) / (n : ℝ)) * total
    let j := findSegAux d t 0
    let seg := d.getD (j + 1) 0 - d.getD j 0
    let tt := (t - d.getD j 0) / (if seg = 0 then 1 else seg)
    let pj := pts.getD j default
    let pj1 := pts.getD (j + 1) default
    ⟨pj.x + (pj1.x - pj.x) * tt, pj.y + (pj1.y - pj.y) * tt⟩)

/-- The point at target arc length `t` along the polyline: the segment index
is obtained by cumulative-distance lookup (how many cumulative distances of
the interior vertices lie strictly below `t`), then the point is the linear
interpolation between the segment's two input vertices.  Stated from the
spec's description of the resampler, for comparison with `resamplePath`. -/
noncomputable def arcInterp (pts : List Pt) (t : ℝ) : Pt :=
  let d := cumDist pts
  let j := (List.range (d.length - 1)).countP (fun k => decide (d.getD (k + 1) 0 < t))
  let seg := d.getD (j + 1) 0 - d.getD j 0
  let tt := (t - d.getD j 0) / (if seg = 0 then 1 else seg)
  let pj := pts.getD j default
  let pj1 := pts.getD (j + 1) default
  ⟨pj.x + (pj1.x - pj.x) * tt, pj.y + (pj1.y - pj.y) * tt⟩

/-- One pass of the inner loop of `smoothPath`: for every consecutive pair
`(p0,p1)` emit the 25% and 75% corner-cut points. -/
def chaikinMid : List Pt → List Pt
  | p0 :: p1 :: rest =>
      ⟨0.75 * p0.x + 0.25 * p1.x, 0.75 * p0.y + 0.25 * p1.y⟩ ::
      ⟨0.25 * p0.x + 0.75 * p1.x, 0.25 * p0.y + 0.75 * p1.y⟩ :: chaikinMid (p1 :: rest)
  | _ => []

/-- One round of `smoothPath`: `nxt = [cur[0]]; ...push q,r per segment...; nxt.push(last)`. -/
def chaikinRound (cur : List Pt) : List Pt :=
  cur.headD default :: (chaikinMid cur ++ [cur.getLastD default])

/-- `smoothPath(pts, iters)` (line 129). -/
def smoothPath (pts : List Pt) (iters : ℕ) : List Pt :=
  if pts.length < 3 then pts else chaikinRound^[iters] pts

/-- Output sample of `computeCurvature`: signed curvature and unit tangent. -/
structure CurvSample where
  kappa : ℝ
  tx : ℝ
  ty : ℝ

instance : Inhabited CurvSample := ⟨⟨0, 0, 0⟩⟩

/-- Incoming segment vector `(dx1, dy1) = p1 - p0` at index `i` of a closed path. -/
noncomputable def curvIn (pts : List Pt) (i : ℕ) : ℝ × ℝ :=
  let n := pts.length
  let p0 := pts.getD ((i + n - 1) % n) default
  let p1 := pts.getD i default
  (p1.x - p0.x, p1.y - p0.y)

/-- Outgoing segment vector `(dx2, dy2) = p2 - p1` at index `i` of a closed path. -/
noncomputable def curvOut (pts : List Pt) (i : ℕ) : ℝ × ℝ :=
  let n := pts.length
  let p1 := pts.getD i default
  let p2 := pts.getD ((i + 1) % n) default
  (p2.x - p1.x, p2.y - p1.y)

/-- Cross product `dx1*dy2 - dy1*dx2` at index `i`. -/
noncomputable def curvCross (pts : List Pt) (i : ℕ) : ℝ :=
  (curvIn pts i).1 * (curvOut pts i).2 - (curvIn pts i).2 * (curvOut pts i).1

/-- The raw curvature denominator `len1*len2*(len1+len2)` at index `i`. -/
noncomputable def curvDenomRaw (pts : List Pt) (i : ℕ) : ℝ :=
  let len1 := hypot (curvIn pts i).1 (curvIn pts i).2
  let len2 := hypot (curvOut pts i).1 (curvOut pts i).2
  len1 * len2 * (len1 + len2)

/-- The guarded curvature denominator `(len1*len2*(len1+len2)) || 1`. -/
noncomputable def curvDenom (pts : List Pt) (i : ℕ) : ℝ :=
  if curvDenomRaw pts i = 0 then 1 else curvDenomRaw pts i

/-- The averaged tangent `((dx1+dx2)/2, (dy1+dy2)/2)` at index `i`. -/
noncomputable def tangentAvg (pts : List Pt) (i : ℕ) : ℝ × ℝ :=
  (((curvIn pts i).1 + (curvOut pts i).1) / 2, ((curvIn pts i).2 + (curvOut pts i).2) / 2)

/-- The guarded tangent normalization length `Math.hypot(tx,ty) || 1`. -/
noncomputable def tangentLen (pts : List Pt) (i : ℕ) : ℝ :=
  if hypot (tangentAvg pts i).1 (tangentAvg pts i).2 = 0 then 1
  else hypot (tangentAvg pts i).1 (tangentAvg pts i).2

/-- `computeCurvature(pts)` (lines 134-138), treating the path as a closed loop. -/
noncomputable def computeCurvature (pts : List Pt) : List CurvSample :=
  (List.range pts.length).map (fun i =>
    ⟨curvCross pts i / curvDenom pts i,
     (tangentAvg pts i).1 / tangentLen pts i,
     (tangentAvg pts i).2 / tangentLen pts i⟩)

/-- The physics parameter bundle passed to `simulateLap` / `optimizeRacingLine`. -/
structure SimParams where
  pxToMeter : ℝ
  tyreMu : ℝ
  maxBrakeAccel : ℝ
  enginePower : ℝ
  vTop : ℝ

/-- The gravitational constant `g = 9.81` of `simulateLap`. -/
noncomputable def grav : ℝ := 9.81

/-- Result record of `simulateLap`: `{ time, speedProfile, dist, speedLimit }`. -/
structure SimResult where
  time : ℝ
  speedProfile : List ℝ
  dist : List ℝ
  speedLimit : List ℝ

/-- The per-segment distance array of `simulateLap` (lines 147-149): segment
`i → i+1` for `i < n-1`, and the loop-closing segment `n-1 → 0` at index `n-1`,
all scaled by `pxToMeter`. -/
noncomputable def distList (path : List Pt) (px2m : ℝ) : List ℝ :=
  (List.range path.length).map (fun i =>
    if i < path.length - 1 then
      distance (path.getD (i + 1) default) (path.getD i default) * px2m
    else
      distance (path.getD 0 default) (path.getD (path.length - 1) default) * px2m)

/-- Per-sample curvature magnitude in 1/m (line 151): `|kappa| / pxToMeter`. -/
noncomputable def curvMag (path : List Pt) (px2m : ℝ) : List ℝ :=
  (computeCurvature path).map (fun c => |c.kappa| / px2m)

/-- Per-sample speed limits (lines 153-154): lateral-grip limit where the
curvature magnitude exceeds `1e-8`, else the top speed; then clamped to the
top speed. -/
noncomputable def speedLimits (path : List Pt) (o : SimParams) : List ℝ :=
  ((curvMag path o.pxToMeter).map (fun k =>
      if 1e-8 < k then Real.sqrt (max 0.5 (o.tyreMu * grav / k)) else o.vTop)).map
    (fun v => min v o.vTop)

/-- The simplified constant forward acceleration (line 160). -/
noncomputable def aForward (o : SimParams) : ℝ :=
  min (o.enginePower / max 1 (o.enginePower / 1e3)) 3.5

/-- Forward pass tail (lines 159-164): given the previous speed, the remaining
limits (from index 1 on) and the distances (from index 0 on), accumulate
`v[i] = min(limit[i], sqrt(v[i-1]^2 + 2*a*dist[i-1]), vTop)`. -/
noncomputable def forwardFrom (o : SimParams) (aF : ℝ) : ℝ → List ℝ → List ℝ → List ℝ
  | _, [], _ => []
  | _, _ :: _, [] => []
  | vprev, l :: ls, dd :: ds =>
      let vi := min (min l (Real.sqrt (vprev * vprev + 2 * aF * dd))) o.vTop
      vi :: forwardFrom o aF vi ls ds

/-- The full forward pass: `v[0] = min(speedLimit[0], vTop)` then `forwardFrom`. -/
noncomputable def forwardPass (path : List Pt) (o : SimParams) : List ℝ :=
  match speedLimits path o with
  | [] => []
  | l0 :: ls => min l0 o.vTop :: forwardFrom o (aForward o) (min l0 o.vTop) ls (distList path o.pxToMeter)

/-- One backward braking round (lines 167-172): walking from `i = n-2` down to
`0`, cap `v[i]` at `sqrt(v[i+1]^2 + 2*brake*dist[i])` (using the value of
`v[i+1]` already updated in this round); the last sample is never modified. -/
noncomputable def backwardRound (brake : ℝ) : List ℝ → List ℝ → List ℝ
  | dd :: ds, x :: xs =>
      let rest := backwardRound brake ds xs
      match rest with
      | [] => [x]
      | y :: _ =>
          let vAllow := Real.sqrt (y * y + 2 * brake * dd)
          (if vAllow < x then max 0 vAllow else x) :: rest
  | _, v => v

/-- The final speed profile: three backward braking rounds applied to the
forward pass result. -/
noncomputable def lapProfile (path : List Pt) (o : SimParams) : List ℝ :=
  (fun vv => backwardRound o.maxBrakeAccel (distList path o.pxToMeter) vv)^[3]
    (forwardPass path o)

/-- The total lap time: per-sample time `dist[i] / max(0.1, v[i])`, summed. -/
noncomputable def lapTotalTime (path : List Pt) (o : SimParams) : ℝ :=
  (((distList path o.pxToMeter).zip (lapProfile path o)).map
    (fun p => p.1 / max 0.1 p.2)).sum

/-- `simulateLap(path, options)` (lines 141-182): `null` when the path has
fewer than 2 points, otherwise the lap time, speed profile, distances and
speed limits. -/
noncomputable def simulateLap (path : List Pt) (o : SimParams) : Option SimResult :=
  if path.length < 2 then none else
  some ⟨lapTotalTime path o, lapProfile path o, distList path o.pxToMeter, speedLimits path o⟩

/-- A concrete closed test track: a 100-unit square whose last edge carries an
extra vertex at (0,20), so samples 0-3 are corners and sample 4 lies on a
straight. -/
noncomputable def sqTestPath : List Pt := [⟨0,0⟩, ⟨100,0⟩, ⟨100,100⟩, ⟨0,100⟩, ⟨0,20⟩]

/-- Concrete physics parameters for the test track: unit scale, zero grip
coefficient (forcing the 0.5 floor inside the grip limit), brake decel 1,
power 3500 (constant forward acceleration 3.5), top speed 10. -/
noncomputable def sqTestParams : SimParams := ⟨1, 0, 1, 3500, 10⟩

/-- Per-sample normal vectors of `optimizeRacingLine` (lines 194-197): the
neighboring-sample tangent `p[i+1] - p[i-1]` (indices wrapping), rotated 90°
and divided by its guarded length `Math.hypot(tx,ty) || 1`. -/
noncomputable def normalsOf (candidate : List Pt) : List (ℝ × ℝ) :=
  (List.range candidate.length).map (fun i =>
    let m := candidate.length
    let p1 := candidate.getD ((i + 1) % m) default
    let p0 := candidate.getD ((i + m - 1) % m) default
    let tx := p1.x - p0.x
    let ty := p1.y - p0.y
    let len := if hypot tx ty = 0 then 1 else hypot tx ty
    (-ty / len, tx / len))

/-- A corridor bound `{min, max}` of the optimizer. -/
structure Bound where
  min : ℝ
  max : ℝ

instance : Inhabited Bound := ⟨⟨0, 0⟩⟩

/-- The fractional-index pairing `Math.round(i*len/candLen)` used to pick the
edge sample paired with centerline sample `i` (line 204). -/
noncomputable def pairIdx (i len candLen : ℕ) : ℕ :=
  (round ((i : ℝ) * (len : ℝ) / (candLen : ℝ))).toNat

/-- Signed projection of the paired edge point onto the local normal:
`(p - c)·n` (line 205). -/
noncomputable def projOnNormal (p c : Pt) (nrm : ℝ × ℝ) : ℝ :=
  (p.x - c.x) * nrm.1 + (p.y - c.y) * nrm.2

/-- The corridor bounds of `optimizeRacingLine` (lines 199-208): for each
candidate sample, the lesser and greater of the signed projections of the
paired left and right edge points onto the local normal. -/
noncomputable def allowedOf (candidate left right : List Pt) : List Bound :=
  (List.range candidate.length).map (fun i =>
    let c := candidate.getD i default
    let nrm := (normalsOf candidate).getD i default
    let lp := left.getD (pairIdx i left.length candidate.length) default
    let rp := right.getD (pairIdx i right.length candidate.length) default
    let dl := projOnNormal lp c nrm
    let dr := projOnNormal rp c nrm
    ⟨min dl dr, max dl dr⟩)

/-- The centerline built inside `optimizeRacingLine` (lines 187-190): the two
edges resampled at spacing 3, paired index-wise up to the shorter length,
giving midpoints. -/
noncomputable def centerFrom (left right : List Pt) : List Pt :=
  let l := resamplePath left 3
  let r := resamplePath right 3
  (List.range (min l.length r.length)).map (fun i =>
    ⟨((l.getD i default).x + (r.getD i default).x) / 2,
     ((l.getD i default).y + (r.getD i default).y) / 2⟩)

/-- The seed path of the optimizer (line 191): the centerline smoothed 3 rounds. -/
noncomputable def seedPath (left right : List Pt) : List Pt :=
  smoothPath (centerFrom left right) 3

/-- The optimizer's working state: current candidate and tracked best lap time. -/
structure OptState where
  candidate : List Pt
  bestTime : ℝ

/-- One random perturbation try (lines 217-224): pick sample `i` from the
first draw, displace it along its normal by a step scaled from the second
draw, re-smooth 2 rounds, re-simulate, and accept iff strictly faster.
Returns the new state and whether this try improved. -/
noncomputable def tryPerturb (o : SimParams) (normals : List (ℝ × ℝ)) (allowed : List Bound)
    (iterations it : ℕ) (r1 r2 : ℝ) (s : OptState) : OptState × Bool :=
  let len := s.candidate.length
  let i := (⌊r1 * (len : ℝ)⌋).toNat
  let rng := min ((allowed.getD i default).max - (allowed.getD i default).min) 60
  let step := (r2 * 2 - 1) * rng * (0.08 + 0.92 * (1 - (it : ℝ) / (iterations : ℝ)))
  let nrm := normals.getD i default
  let newCandidate := (List.range len).map (fun idx =>
    let p := s.candidate.getD idx default
    if idx = i then (⟨p.x + nrm.1 * step, p.y + nrm.2 * step⟩ : Pt) else ⟨p.x, p.y⟩)
  let sm := smoothPath newCandidate 2
  match simulateLap sm o with
  | some sim => if sim.time < s.bestTime then (⟨sm, sim.time⟩, true) else (s, false)
  | none => (s, false)

/-- One step of the 30-try inner loop: run try `t` of iteration `it` on the
current state and accumulate the `improved` flag. -/
noncomputable def tryStep (o : SimParams) (normals : List (ℝ × ℝ)) (allowed : List Bound)
    (iterations it : ℕ) (rnd : ℕ → ℝ × ℝ) (sb : OptState × Bool) (t : ℕ) : OptState × Bool :=
  let d := rnd (it * 30 + t)
  let r := tryPerturb o normals allowed iterations it d.1 d.2 sb.1
  (r.1, sb.2 || r.2)

/-- The 30-try inner loop of one optimizer iteration (lines 216-225); the
random source `rnd` yields the two draws of global try number `it*30 + t`. -/
noncomputable def runTries (o : SimParams) (normals : List (ℝ × ℝ)) (allowed : List Bound)
    (iterations it : ℕ) (rnd : ℕ → ℝ × ℝ) (s : OptState) : OptState × Bool :=
  (List.range 30).foldl (tryStep o normals allowed iterations it rnd) (s, false)

/-- The iteration loop of `optimizeRacingLine` (lines 214-230), with the
stagnation-based early stop `if(!improved && it>30) break`; `rem` is the
number of iterations still permitted by the budget. -/
noncomputable def optLoop (o : SimParams) (normals : List (ℝ × ℝ)) (allowed : List Bound)
    (iterations : ℕ) (rnd : ℕ → ℝ × ℝ) : ℕ → ℕ → OptState → OptState
  | 0, _, s => s
  | rem + 1, it, s =>
      let r := runTries o normals allowed iterations it rnd s
      if r.2 = false ∧ 30 < it then r.1
      else optLoop o normals allowed iterations rnd rem (it + 1) r.1

/-- `optimizeRacingLine` (lines 185-233), modelled from the corridor build
onward: returns the final racing line and tracked best lap time, or `none`
when the baseline simulation fails.  The random source is explicit. -/
noncomputable def optimizeRacingLine (left right : List Pt) (o : SimParams)
    (iterations : ℕ) (rnd : ℕ → ℝ × ℝ) : Option (List Pt × ℝ) :=
  let l := resamplePath left 3
  let r := resamplePath right 3
  let path := seedPath left right
  let normals := normalsOf path
  let allowed := allowedOf path l r
  match simulateLap path o with
  | none => none
  | some s0 =>
      let fin := optLoop o normals allowed iterations rnd iterations 0 ⟨path, s0.time⟩
      some (fin.candidate, fin.bestTime)

/-! ## Helper lemmas -/

theorem Pt.ext_xy {a b : Pt} (hx : a.x = b.x) (hy : a.y = b.y) : a = b := by
  cases a; cases b; simp_all

theorem hypot_nonneg (a b : ℝ) : 0 ≤ hypot a b := Real.sqrt_nonneg _

theorem distance_nonneg (a b : Pt) : 0 ≤ distance a b := hypot_nonneg _ _

theorem cumFrom_length (acc : ℝ) (prev : Pt) (l : List Pt) :
    (cumFrom acc prev l).length = l.length := by
  induction l generalizing acc prev with
  | nil => rfl
  | cons p ps ih => simp [cumFrom, ih]

theorem cumDist_length (pts : List Pt) : (cumDist pts).length = pts.length := by
  cases pts with
  | nil => rfl
  | cons p ps => simp [cumDist, cumFrom_length]

theorem chaikinMid_length (l : List Pt) : (chaikinMid l).length = 2 * (l.length - 1) := by
  induction l with
  | nil => rfl
  | cons p ps ih =>
      cases ps with
      | nil => rfl
      | cons q qs => simp [chaikinMid] at ih ⊢; omega

theorem chaikinRound_length (l : List Pt) (h : 1 ≤ l.length) :
    (chaikinRound l).length = 2 * l.length := by
  simp [chaikinRound, chaikinMid_length]; omega

theorem chaikinRound_iter_length (k : ℕ) (l : List Pt) (h : 1 ≤ l.length) :
    (chaikinRound^[k] l).length = l.length * 2 ^ k := by
  induction k generalizing l with
  | zero => simp
  | succ k ih =>
      rw [Function.iterate_succ_apply, ih _ (by rw [chaikinRound_length l h]; omega),
        chaikinRound_length l h]
      ring

/-- Point count of `smoothPath`: each round doubles the count, so `iters`
rounds on an `n`-point path (`n ≥ 3`) give `n * 2 ^ iters` points. -/
theorem smoothPath_length (pts : List Pt) (iters : ℕ) (h : 3 ≤ pts.length) :
    (smoothPath pts iters).length = pts.length * 2 ^ iters := by
  rw [smoothPath, if_neg (by omega)]
  exact chaikinRound_iter_length iters pts (by omega)

theorem getLastD_eq_getD (l : List ℝ) (d : ℝ) (h : l ≠ []) :
    l.getLastD d = l.getD (l.length - 1) d := by
  have hlen : l.length - 1 < l.length := by
    cases l with
    | nil => simp at h
    | cons a as => simp
  rw [List.getD_eq_getElem l d hlen, List.getLastD_eq_getLast?, List.getLast?_eq_getElem?]
  simp [List.getElem?_eq_getElem hlen]

theorem range_map_getD {α : Type} (n : ℕ) (f : ℕ → α) (dflt : α) (i : ℕ) (h : i < n) :
    ((List.range n).map f).getD i dflt = f i := by
  rw [List.getD_eq_getElem _ dflt (by simpa using h)]
  simp

theorem hypot_zero_right (a : ℝ) : hypot a 0 = |a| := by
  rw [hypot]
  rw [show a ^ 2 + (0:ℝ) ^ 2 = a ^ 2 by ring, Real.sqrt_sq_eq_abs]

theorem hypot_zero_left (b : ℝ) : hypot 0 b = |b| := by
  rw [hypot]
  rw [show (0:ℝ) ^ 2 + b ^ 2 = b ^ 2 by ring, Real.sqrt_sq_eq_abs]

theorem resamplePath_length (pts : List Pt) (s : ℝ) (h : 2 ≤ pts.length) :
    (resamplePath pts s).length =
      (max 2 (round ((cumDist pts).getLastD 0 / s))).toNat + 1 := by
  rw [resamplePath, if_neg (by omega)]
  rw [List.length_map, List.length_range]

theorem resamplePath_length_ge (pts : List Pt) (s : ℝ) (h : 2 ≤ pts.length) :
    3 ≤ (resamplePath pts s).length := by
  rw [resamplePath_length pts s h]
  have : (2:ℤ) ≤ max 2 (round ((cumDist pts).getLastD 0 / s)) := le_max_left _ _
  omega

/-- C5 counterexample: one smoothing round on a 3-point path yields 6 points,
not the `3 + (3-1)*(2^1-1) = 5` points the claim's formula predicts. -/
theorem C5_counterexample :
    (smoothPath [⟨0,0⟩, ⟨1,0⟩, ⟨2,0⟩] 1).length = 6 ∧
    (6 : ℕ) ≠ 3 + (3 - 1) * (2 ^ 1 - 1) := by
  constructor
  · have h := smoothPath_length [⟨0,0⟩, ⟨1,0⟩, ⟨2,0⟩] 1 (by simp)
    simpa using h
  · decide

/-- C5 (amended): `k` rounds of the path smoother on an `n`-point path with
`n ≥ 3` yield a path with exactly `n * 2^k` points (each round doubles the
point count: it keeps both endpoints and emits two points per segment). -/
theorem C5_smooth_count (pts : List Pt) (k : ℕ) (h : 3 ≤ pts.length) :
    (smoothPath pts k).length = pts.length * 2 ^ k :=
  smoothPath_length pts k h

/-- C5 witness: the amended count formula at a concrete 3-point path and 1 round. -/
theorem C5_smooth_count_witness :
    3 ≤ ([⟨0,0⟩, ⟨1,0⟩, ⟨2,0⟩] : List Pt).length ∧
    (smoothPath [⟨0,0⟩, ⟨1,0⟩, ⟨2,0⟩] 1).length = 3 * 2 ^ 1 :=
  ⟨by simp, by simpa using C5_smooth_count [⟨0,0⟩, ⟨1,0⟩, ⟨2,0⟩] 1 (by simp)⟩

/-- C6: on any closed path (coincident consecutive points included) the
curvature computation divides by guarded denominators that are never zero —
both the curvature denominator `|in|*|out|*(|in|+|out|) || 1` and the tangent
normalization length — and each returned sample is exactly the quotient by
those nonzero denominators (a well-defined real number). -/
theorem C6_curvature_no_div_by_zero (pts : List Pt) (i : ℕ) (hi : i < pts.length) :
    curvDenom pts i ≠ 0 ∧ tangentLen pts i ≠ 0 ∧
    (computeCurvature pts).getD i default =
      ⟨curvCross pts i / curvDenom pts i,
       (tangentAvg pts i).1 / tangentLen pts i,
       (tangentAvg pts i).2 / tangentLen pts i⟩ := by
  refine ⟨?_, ?_, ?_⟩
  · rw [curvDenom]
    split
    · exact one_ne_zero
    · assumption
  · rw [tangentLen]
    split
    · exact one_ne_zero
    · assumption
  · rw [computeCurvature, range_map_getD pts.length _ default i hi]

/-- C6 witness: a degenerate closed path of three coincident points. -/
theorem C6_curvature_no_div_by_zero_witness :
    curvDenom [⟨0,0⟩, ⟨0,0⟩, ⟨0,0⟩] 0 ≠ 0 ∧ tangentLen [⟨0,0⟩, ⟨0,0⟩, ⟨0,0⟩] 0 ≠ 0 ∧
    (computeCurvature [⟨0,0⟩, ⟨0,0⟩, ⟨0,0⟩]).getD 0 default =
      ⟨curvCross [⟨0,0⟩, ⟨0,0⟩, ⟨0,0⟩] 0 / curvDenom [⟨0,0⟩, ⟨0,0⟩, ⟨0,0⟩] 0,
       (tangentAvg [⟨0,0⟩, ⟨0,0⟩, ⟨0,0⟩] 0).1 / tangentLen [⟨0,0⟩, ⟨0,0⟩, ⟨0,0⟩] 0,
       (tangentAvg [⟨0,0⟩, ⟨0,0⟩, ⟨0,0⟩] 0).2 / tangentLen [⟨0,0⟩, ⟨0,0⟩, ⟨0,0⟩] 0⟩ :=
  C6_curvature_no_div_by_zero [⟨0,0⟩, ⟨0,0⟩, ⟨0,0⟩] 0 (by simp)

theorem simulateLap_eq (path : List Pt) (o : SimParams) (h : 2 ≤ path.length) :
    simulateLap path o =
      some ⟨lapTotalTime path o, lapProfile path o, distList path o.pxToMeter,
            speedLimits path o⟩ := by
  rw [simulateLap, if_neg (by omega)]

theorem simulateLap_isSome (path : List Pt) (o : SimParams) (h : 2 ≤ path.length) :
    ∃ r, simulateLap path o = some r :=
  ⟨_, simulateLap_eq path o h⟩

theorem distList_length (path : List Pt) (px2m : ℝ) :
    (distList path px2m).length = path.length := by
  rw [distList, List.length_map, List.length_range]

theorem computeCurvature_length (pts : List Pt) :
    (computeCurvature pts).length = pts.length := by
  rw [computeCurvature, List.length_map, List.length_range]

theorem curvMag_length (path : List Pt) (px2m : ℝ) :
    (curvMag path px2m).length = path.length := by
  rw [curvMag, List.length_map, computeCurvature_length]

theorem speedLimits_length (path : List Pt) (o : SimParams) :
    (speedLimits path o).length = path.length := by
  rw [speedLimits, List.length_map, List.length_map, curvMag_length]

theorem forwardFrom_length (o : SimParams) (aF : ℝ) :
    ∀ (ls ds : List ℝ) (vprev : ℝ),
      (forwardFrom o aF vprev ls ds).length = min ls.length ds.length := by
  intro ls
  induction ls with
  | nil => intro ds vprev; simp [forwardFrom]
  | cons l ls ih =>
      intro ds vprev
      cases ds with
      | nil => simp [forwardFrom]
      | cons dd ds => simp [forwardFrom, ih]; omega

theorem forwardPass_length (path : List Pt) (o : SimParams) (h : 1 ≤ path.length) :
    (forwardPass path o).length = path.length := by
  rw [forwardPass]
  have hlen : (speedLimits path o).length = path.length := speedLimits_length path o
  cases hsl : speedLimits path o with
  | nil => rw [hsl] at hlen; simp at hlen; omega
  | cons l0 ls =>
      rw [hsl] at hlen
      simp [forwardFrom_length, distList_length]
      simp at hlen
      omega

theorem backwardRound_nil_left (b : ℝ) (vs : List ℝ) : backwardRound b [] vs = vs := by
  cases vs <;> rfl

theorem backwardRound_nil_right (b dd : ℝ) (ds : List ℝ) : backwardRound b (dd :: ds) [] = [] :=
  rfl

theorem backwardRound_cons (b dd x : ℝ) (ds xs : List ℝ) :
    backwardRound b (dd :: ds) (x :: xs) =
      (match backwardRound b ds xs with
       | [] => [x]
       | y :: ys =>
           (if Real.sqrt (y * y + 2 * b * dd) < x then max 0 (Real.sqrt (y * y + 2 * b * dd))
            else x) :: y :: ys) := by
  rw [backwardRound]
  cases backwardRound b ds xs <;> simp

theorem backwardRound_length (b : ℝ) :
    ∀ (ds vs : List ℝ), (backwardRound b ds vs).length = vs.length := by
  intro ds
  induction ds with
  | nil => intro vs; rw [backwardRound_nil_left]
  | cons dd ds ih =>
      intro vs
      cases vs with
      | nil => rw [backwardRound_nil_right]
      | cons x xs =>
          rw [backwardRound_cons]
          have hrest := ih xs
          cases hr : backwardRound b ds xs with
          | nil =>
              rw [hr] at hrest
              have hx : xs.length = 0 := by simpa using hrest.symm
              simp [hx]
          | cons y ys =>
              rw [hr] at hrest
              simp only [List.length_cons] at hrest ⊢
              omega

theorem lapProfile_length (path : List Pt) (o : SimParams) (h : 1 ≤ path.length) :
    (lapProfile path o).length = path.length := by
  rw [lapProfile]
  rw [show (3:ℕ) = 2 + 1 by rfl, Function.iterate_succ_apply',
    show (2:ℕ) = 1 + 1 by rfl, Function.iterate_succ_apply', Function.iterate_one]
  rw [backwardRound_length, backwardRound_length, backwardRound_length]
  exact forwardPass_length path o h

/-- C7: `simulateLap` fails exactly on paths with fewer than 2 points; on a
path with at least 2 points it returns a result whose speed profile, segment
distances and speed limits are parallel arrays of the path's length. -/
theorem C7_simulateLap_contract (path : List Pt) (o : SimParams) :
    (simulateLap path o = none ↔ path.length < 2) ∧
    (∀ r, simulateLap path o = some r →
      r.speedProfile.length = path.length ∧ r.dist.length = path.length ∧
      r.speedLimit.length = path.length) := by
  constructor
  · constructor
    · intro hnone
      by_contra hlen
      obtain ⟨r, hr⟩ := simulateLap_isSome path o (by omega)
      rw [hr] at hnone
      exact Option.noConfusion hnone
    · intro hlen
      rw [simulateLap, if_pos hlen]
  · intro r hr
    have h2 : 2 ≤ path.length := by
      by_contra hlen
      rw [simulateLap, if_pos (by omega)] at hr
      exact Option.noConfusion hr
    rw [simulateLap_eq path o h2] at hr
    have hr' := Option.some.inj hr
    subst hr'
    exact ⟨lapProfile_length path o (by omega), distList_length path o.pxToMeter,
      speedLimits_length path o⟩

/-- C7 witness: a concrete 2-point path returns a result with parallel arrays,
and a concrete 1-point path fails. -/
theorem C7_simulateLap_contract_witness :
    (∃ r, simulateLap [⟨0,0⟩, ⟨1,0⟩] ⟨1, 1.6, 7.5, 8500, 22⟩ = some r ∧
      r.speedProfile.length = 2 ∧ r.dist.length = 2 ∧ r.speedLimit.length = 2) ∧
    simulateLap [⟨0,0⟩] ⟨1, 1.6, 7.5, 8500, 22⟩ = none := by
  constructor
  · obtain ⟨r, hr⟩ := simulateLap_isSome [⟨0,0⟩, ⟨1,0⟩] ⟨1, 1.6, 7.5, 8500, 22⟩ (by simp)
    have h := (C7_simulateLap_contract [⟨0,0⟩, ⟨1,0⟩] ⟨1, 1.6, 7.5, 8500, 22⟩).2 r hr
    exact ⟨r, hr, by simpa using h⟩
  · exact (C7_simulateLap_contract [⟨0,0⟩] ⟨1, 1.6, 7.5, 8500, 22⟩).1.mpr (by simp)

theorem speedLimits_mem_bounds (path : List Pt) (o : SimParams) (hv : 0 ≤ o.vTop) :
    ∀ l ∈ speedLimits path o, 0 ≤ l ∧ l ≤ o.vTop := by
  intro l hl
  rw [speedLimits] at hl
  simp only [List.mem_map] at hl
  obtain ⟨v, ⟨k, _, rfl⟩, rfl⟩ := hl
  refine ⟨le_min ?_ hv, min_le_right _ _⟩
  split
  · exact Real.sqrt_nonneg _
  · exact hv

theorem forwardFrom_mem_bounds (o : SimParams) (aF : ℝ) (hv : 0 ≤ o.vTop) :
    ∀ (ls ds : List ℝ) (vprev : ℝ), (∀ l ∈ ls, 0 ≤ l) →
      ∀ x ∈ forwardFrom o aF vprev ls ds, 0 ≤ x ∧ x ≤ o.vTop := by
  intro ls
  induction ls with
  | nil => intro ds vprev _ x hx; simp [forwardFrom] at hx
  | cons l ls ih =>
      intro ds vprev hls x hx
      cases ds with
      | nil => simp [forwardFrom] at hx
      | cons dd ds =>
          rw [forwardFrom] at hx
          rcases List.mem_cons.mp hx with h | h
          · subst h
            refine ⟨le_min (le_min (hls l (by simp)) (Real.sqrt_nonneg _)) hv, min_le_right _ _⟩
          · exact ih ds _ (fun a ha => hls a (by simp [ha])) x h

theorem forwardPass_mem_bounds (path : List Pt) (o : SimParams) (hv : 0 ≤ o.vTop) :
    ∀ x ∈ forwardPass path o, 0 ≤ x ∧ x ≤ o.vTop := by
  intro x hx
  rw [forwardPass] at hx
  cases hsl : speedLimits path o with
  | nil => rw [hsl] at hx; simp at hx
  | cons l0 ls =>
      rw [hsl] at hx
      rcases List.mem_cons.mp hx with h | h
      · subst h
        have hl0 : 0 ≤ l0 ∧ l0 ≤ o.vTop :=
          speedLimits_mem_bounds path o hv l0 (by rw [hsl]; simp)
        exact ⟨le_min hl0.1 hv, min_le_right _ _⟩
      · refine forwardFrom_mem_bounds o (aForward o) hv ls (distList path o.pxToMeter) _ ?_ x h
        intro a ha
        exact (speedLimits_mem_bounds path o hv a (by rw [hsl]; exact List.mem_cons_of_mem _ ha)).1

theorem backwardRound_mem_bounds (b M : ℝ) :
    ∀ (ds vs : List ℝ), (∀ x ∈ vs, 0 ≤ x ∧ x ≤ M) →
      ∀ y ∈ backwardRound b ds vs, 0 ≤ y ∧ y ≤ M := by
  intro ds
  induction ds with
  | nil => intro vs hvs y hy; rw [backwardRound_nil_left] at hy; exact hvs y hy
  | cons dd ds ih =>
      intro vs hvs y hy
      cases vs with
      | nil => rw [backwardRound_nil_right] at hy; simp at hy
      | cons x xs =>
          rw [backwardRound_cons] at hy
          have hx : 0 ≤ x ∧ x ≤ M := hvs x (by simp)
          have htail : ∀ a ∈ xs, 0 ≤ a ∧ a ≤ M := fun a ha => hvs a (by simp [ha])
          cases hr : backwardRound b ds xs with
          | nil =>
              rw [hr] at hy
              simp only [List.mem_singleton] at hy
              subst hy
              exact hx
          | cons z zs =>
              rw [hr] at hy
              rcases List.mem_cons.mp hy with h | h
              · subst h
                split
                · rename_i hlt
                  constructor
                  · exact le_max_left 0 _
                  · have h1 : max 0 (Real.sqrt (z * z + 2 * b * dd)) ≤ max 0 x :=
                      max_le_max le_rfl (le_of_lt hlt)
                    calc max 0 (Real.sqrt (z * z + 2 * b * dd)) ≤ max 0 x := h1
                      _ = x := max_eq_right hx.1
                      _ ≤ M := hx.2
                · exact hx
              · have := ih xs htail y (by rw [hr]; exact h)
                exact this

theorem lapProfile_mem_bounds (path : List Pt) (o : SimParams) (hv : 0 ≤ o.vTop) :
    ∀ x ∈ lapProfile path o, 0 ≤ x ∧ x ≤ o.vTop := by
  rw [lapProfile]
  rw [show (3:ℕ) = 2 + 1 by rfl, Function.iterate_succ_apply',
    show (2:ℕ) = 1 + 1 by rfl, Function.iterate_succ_apply', Function.iterate_one]
  intro x hx
  refine backwardRound_mem_bounds _ o.vTop _ _ ?_ x hx
  intro y hy
  refine backwardRound_mem_bounds _ o.vTop _ _ ?_ y hy
  intro z hz
  refine backwardRound_mem_bounds _ o.vTop _ _ ?_ z hz
  exact forwardPass_mem_bounds path o hv

/-- C2: for every path with at least 2 points and positive configured top
speed, every entry of the speed profile returned by `simulateLap` lies in
`[0, vTop]`. -/
theorem C2_profile_bounds (path : List Pt) (o : SimParams) (h2 : 2 ≤ path.length)
    (hv : 0 < o.vTop) :
    ∀ r, simulateLap path o = some r → ∀ s ∈ r.speedProfile, 0 ≤ s ∧ s ≤ o.vTop := by
  intro r hr s hs
  rw [simulateLap_eq path o h2] at hr
  have hr' := Option.some.inj hr
  subst hr'
  exact lapProfile_mem_bounds path o (le_of_lt hv) s hs

/-- C2 witness: the bounds at a concrete 2-point path and parameter bundle. -/
theorem C2_profile_bounds_witness :
    ∃ r, simulateLap [⟨0,0⟩, ⟨1,0⟩] ⟨1, 1.6, 7.5, 8500, 22⟩ = some r ∧
      ∀ s ∈ r.speedProfile, 0 ≤ s ∧ s ≤ (22:ℝ) := by
  obtain ⟨r, hr⟩ := simulateLap_isSome [⟨0,0⟩, ⟨1,0⟩] ⟨1, 1.6, 7.5, 8500, 22⟩ (by simp)
  exact ⟨r, hr, C2_profile_bounds [⟨0,0⟩, ⟨1,0⟩] ⟨1, 1.6, 7.5, 8500, 22⟩ (by simp)
    (by norm_num) r hr⟩

theorem speedLimits_getD (path : List Pt) (o : SimParams) (i : ℕ) (hi : i < path.length) :
    (speedLimits path o).getD i 0 =
      min (if 1e-8 < |((computeCurvature path).getD i default).kappa| / o.pxToMeter then
             Real.sqrt (max 0.5 (o.tyreMu * grav /
               (|((computeCurvature path).getD i default).kappa| / o.pxToMeter)))
           else o.vTop) o.vTop := by
  conv_lhs => rw [speedLimits, curvMag, computeCurvature, List.map_map, List.map_map,
    List.map_map]
  rw [range_map_getD _ _ 0 i hi]
  rw [computeCurvature, range_map_getD _ _ default i hi]
  simp only [Function.comp]

/-- C3 (amended): the per-sample limit is the lateral-grip formula
`sqrt(max(0.5, mu*g/k))` exactly when the per-distance-unit curvature
magnitude `k` exceeds the threshold `1e-8` (not merely when it is non-zero),
and the configured top speed otherwise; every limit is then clamped to the
top speed. -/
theorem C3_speed_limit_formula (path : List Pt) (o : SimParams) (r : SimResult) (i : ℕ)
    (hr : simulateLap path o = some r) (hi : i < path.length) :
    r.speedLimit.getD i 0 =
      min (if 1e-8 < |((computeCurvature path).getD i default).kappa| / o.pxToMeter then
             Real.sqrt (max 0.5 (o.tyreMu * grav /
               (|((computeCurvature path).getD i default).kappa| / o.pxToMeter)))
           else o.vTop) o.vTop := by
  have h2 : 2 ≤ path.length := by
    by_contra hlen
    rw [simulateLap, if_pos (by omega)] at hr
    exact Option.noConfusion hr
  rw [simulateLap_eq path o h2] at hr
  have hr' := Option.some.inj hr
  subst hr'
  exact speedLimits_getD path o i hi

/-- C3 witness: the amended per-sample formula at a concrete 2-point path. -/
theorem C3_speed_limit_formula_witness :
    ∃ r, simulateLap [⟨0,0⟩, ⟨1,0⟩] ⟨1, 1.6, 7.5, 8500, 22⟩ = some r ∧
      r.speedLimit.getD 0 0 =
        min (if 1e-8 < |((computeCurvature [⟨0,0⟩, ⟨1,0⟩]).getD 0 default).kappa| / 1 then
               Real.sqrt (max 0.5 (1.6 * grav /
                 (|((computeCurvature [⟨0,0⟩, ⟨1,0⟩]).getD 0 default).kappa| / 1)))
             else 22) 22 := by
  obtain ⟨r, hr⟩ := simulateLap_isSome [⟨0,0⟩, ⟨1,0⟩] ⟨1, 1.6, 7.5, 8500, 22⟩ (by simp)
  exact ⟨r, hr, C3_speed_limit_formula [⟨0,0⟩, ⟨1,0⟩] ⟨1, 1.6, 7.5, 8500, 22⟩ r 0 hr (by simp)⟩

/-- C3 counterexample: a near-straight sample whose curvature magnitude is
non-zero (`5e-9`) but does not exceed the code's `1e-8` threshold: the code
returns the top speed (`1e10`), while the claimed formula (sqrt of the grip
term, clamped) yields a different, much smaller value. -/
theorem C3_counterexample :
    ∃ r, simulateLap [⟨0,0⟩, ⟨1e8,0⟩, ⟨1e8,1e8⟩] ⟨1, 1.6, 7.5, 8500, 1e10⟩ = some r ∧
      |((computeCurvature [⟨0,0⟩, ⟨1e8,0⟩, ⟨1e8,1e8⟩]).getD 1 default).kappa| / 1 ≠ 0 ∧
      r.speedLimit.getD 1 0 = 1e10 ∧
      min (Real.sqrt (max 0.5 (1.6 * grav /
          (|((computeCurvature [⟨0,0⟩, ⟨1e8,0⟩, ⟨1e8,1e8⟩]).getD 1 default).kappa| / 1)))) 1e10
        ≠ 1e10 := by
  have h_in : curvIn [⟨0,0⟩, ⟨1e8,0⟩, ⟨1e8,1e8⟩] 1 = (1e8, 0) := by simp [curvIn]
  have h_out : curvOut [⟨0,0⟩, ⟨1e8,0⟩, ⟨1e8,1e8⟩] 1 = (0, 1e8) := by simp [curvOut]
  have h_cross : curvCross [⟨0,0⟩, ⟨1e8,0⟩, ⟨1e8,1e8⟩] 1 = 1e16 := by
    rw [curvCross, h_in, h_out]; norm_num
  have h_draw : curvDenomRaw [⟨0,0⟩, ⟨1e8,0⟩, ⟨1e8,1e8⟩] 1 = 2e24 := by
    rw [curvDenomRaw, h_in, h_out]
    rw [hypot_zero_right, hypot_zero_left]
    rw [abs_of_pos (by norm_num : (0:ℝ) < 1e8)]
    norm_num
  have h_denom : curvDenom [⟨0,0⟩, ⟨1e8,0⟩, ⟨1e8,1e8⟩] 1 = 2e24 := by
    rw [curvDenom, h_draw, if_neg (by norm_num)]
  have h_kappa : ((computeCurvature [⟨0,0⟩, ⟨1e8,0⟩, ⟨1e8,1e8⟩]).getD 1 default).kappa = 5e-9 := by
    rw [computeCurvature, range_map_getD _ _ default 1 (by simp)]
    show curvCross _ 1 / curvDenom _ 1 = 5e-9
    rw [h_cross, h_denom]
    norm_num
  obtain ⟨r, hr⟩ := simulateLap_isSome [⟨0,0⟩, ⟨1e8,0⟩, ⟨1e8,1e8⟩] ⟨1, 1.6, 7.5, 8500, 1e10⟩
    (by simp)
  refine ⟨r, hr, ?_, ?_, ?_⟩
  · rw [h_kappa]; norm_num
  · rw [simulateLap_eq _ _ (by simp)] at hr
    have hr' := Option.some.inj hr
    subst hr'
    rw [speedLimits_getD _ _ 1 (by simp), h_kappa]
    rw [if_neg (by rw [abs_of_nonneg (by norm_num : (0:ℝ) ≤ 5e-9)]; norm_num)]
    norm_num
  · rw [h_kappa]
    have hmax : max (0.5:ℝ) (1.6 * grav / (|(5e-9:ℝ)| / 1)) = 1.6 * 9.81 * 2e8 := by
      rw [grav]
      rw [abs_of_pos (by norm_num : (0:ℝ) < 5e-9)]
      rw [max_eq_right (by norm_num)]
      norm_num
    rw [hmax]
    have hlt : Real.sqrt (1.6 * 9.81 * 2e8) < 1e10 := by
      rw [Real.sqrt_lt' (by norm_num)]
      norm_num
    rw [min_eq_left (le_of_lt hlt)]
    exact ne_of_lt hlt

theorem findSegAux_eq_of (d : List ℝ) (t : ℝ) (jstar : ℕ)
    (hstop : ¬(jstar < d.length - 1 ∧ d.getD (jstar + 1) 0 < t)) :
    ∀ (n j : ℕ), jstar - j = n → j ≤ jstar →
      (∀ k, j ≤ k → k < jstar → (k < d.length - 1 ∧ d.getD (k + 1) 0 < t)) →
      findSegAux d t j = jstar := by
  intro n
  induction n with
  | zero =>
      intro j hn hj _
      have hje : j = jstar := by omega
      subst hje
      rw [findSegAux, if_neg hstop]
  | succ n ih =>
      intro j hn hj hall
      have hjlt : j < jstar := by omega
      rw [findSegAux, if_pos (hall j le_rfl hjlt)]
      exact ih (j + 1) (by omega) (by omega) (fun k hk1 hk2 => hall k (by omega) hk2)

theorem countP_range_prefix (N : ℕ) (p : ℕ → Bool)
    (hdc : ∀ a b, a ≤ b → b < N → p b = true → p a = true) :
    (List.range N).countP p ≤ N ∧
    (∀ k < (List.range N).countP p, p k = true) ∧
    ((List.range N).countP p < N → p ((List.range N).countP p) = false) := by
  induction N with
  | zero => simp
  | succ N ih =>
      have hdc' : ∀ a b, a ≤ b → b < N → p b = true → p a = true :=
        fun a b hab hb hpb => hdc a b hab (by omega) hpb
      obtain ⟨ih1, ih2, ih3⟩ := ih hdc'
      rw [List.range_succ, List.countP_append]
      by_cases hpN : p N = true
      · have hall : ∀ a ∈ List.range N, p a = true := by
          intro a ha
          rw [List.mem_range] at ha
          exact hdc a N (by omega) (by omega) hpN
        have hcnt : (List.range N).countP p = N := by
          rw [List.countP_eq_length.mpr hall, List.length_range]
        have hone : List.countP p [N] = 1 := by simp [List.countP_cons, hpN]
        rw [hcnt, hone]
        refine ⟨le_refl _, ?_, by omega⟩
        intro k hk
        rcases Nat.lt_or_ge k N with h | h
        · exact hall k (List.mem_range.mpr h)
        · have : k = N := by omega
          subst this
          exact hpN
      · have hpN' : p N = false := by simpa using hpN
        have hzero : List.countP p [N] = 0 := by simp [List.countP_cons, hpN']
        rw [hzero]
        refine ⟨by omega, ?_, ?_⟩
        · intro k hk
          exact ih2 k (by omega)
        · intro hlt
          rcases Nat.lt_or_ge ((List.range N).countP p + 0) N with h | h
          · simpa using ih3 (by omega)
          · have heq : (List.range N).countP p = N := by omega
            rw [Nat.add_zero, heq]
            exact hpN'

theorem cumFrom_getD_le_succ :
    ∀ (l : List Pt) (acc : ℝ) (prev : Pt) (k : ℕ), k + 1 < l.length →
      (cumFrom acc prev l).getD k 0 ≤ (cumFrom acc prev l).getD (k + 1) 0 := by
  intro l
  induction l with
  | nil => intro acc prev k hk; simp at hk
  | cons p ps ih =>
      intro acc prev k hk
      cases k with
      | zero =>
          cases ps with
          | nil => simp at hk
          | cons q qs =>
              have h0 : (cumFrom acc prev (p :: q :: qs)).getD 0 0 = acc + distance p prev := rfl
              have h1 : (cumFrom acc prev (p :: q :: qs)).getD 1 0 =
                  acc + distance p prev + distance q p := rfl
              rw [h0, h1]
              exact le_add_of_nonneg_right (distance_nonneg q p)
      | succ k =>
          have h0 : (cumFrom acc prev (p :: ps)).getD (k + 1) 0 =
              (cumFrom (acc + distance p prev) p ps).getD k 0 := rfl
          have h1 : (cumFrom acc prev (p :: ps)).getD (k + 2) 0 =
              (cumFrom (acc + distance p prev) p ps).getD (k + 1) 0 := rfl
          rw [h0, h1]
          exact ih (acc + distance p prev) p k (by simpa using hk)

theorem cumDist_getD_le_succ (pts : List Pt) (k : ℕ) (hk : k + 1 < pts.length) :
    (cumDist pts).getD k 0 ≤ (cumDist pts).getD (k + 1) 0 := by
  cases pts with
  | nil => simp at hk
  | cons p ps =>
      cases k with
      | zero =>
          cases ps with
          | nil => simp at hk
          | cons q qs =>
              have h0 : (cumDist (p :: q :: qs)).getD 0 0 = 0 := rfl
              have h1 : (cumDist (p :: q :: qs)).getD 1 0 = 0 + distance q p := rfl
              rw [h0, h1]
              have := distance_nonneg q p
              linarith
      | succ k =>
          have h0 : (cumDist (p :: ps)).getD (k + 1) 0 = (cumFrom 0 p ps).getD k 0 := rfl
          have h1 : (cumDist (p :: ps)).getD (k + 2) 0 = (cumFrom 0 p ps).getD (k + 1) 0 := rfl
          rw [h0, h1]
          exact cumFrom_getD_le_succ ps 0 p k (by simpa using hk)

theorem cumDist_getD_mono (pts : List Pt) :
    ∀ a b, a ≤ b → b < pts.length →
      (cumDist pts).getD a 0 ≤ (cumDist pts).getD b 0 := by
  have hstep : ∀ (n : ℕ) (a b : ℕ), b = a + n → b < pts.length →
      (cumDist pts).getD a 0 ≤ (cumDist pts).getD b 0 := by
    intro n
    induction n with
    | zero => intro a b hb _; subst hb; simp
    | succ n ih =>
        intro a b hb hlen
        subst hb
        calc (cumDist pts).getD a 0 ≤ (cumDist pts).getD (a + n) 0 := ih a (a + n) rfl (by omega)
          _ ≤ (cumDist pts).getD (a + n + 1) 0 := cumDist_getD_le_succ pts (a + n) (by omega)
  intro a b hab hb
  exact hstep (b - a) a b (by omega) hb

theorem findSegAux_cumDist_eq_countP (pts : List Pt) (t : ℝ) :
    findSegAux (cumDist pts) t 0 =
      (List.range ((cumDist pts).length - 1)).countP
        (fun k => decide ((cumDist pts).getD (k + 1) 0 < t)) := by
  have hdc : ∀ a b, a ≤ b → b < (cumDist pts).length - 1 →
      (fun k => decide ((cumDist pts).getD (k + 1) 0 < t)) b = true →
      (fun k => decide ((cumDist pts).getD (k + 1) 0 < t)) a = true := by
    intro a b hab hb hpb
    simp only [decide_eq_true_eq] at hpb ⊢
    have hmono := cumDist_getD_mono pts (a + 1) (b + 1) (by omega)
      (by rw [← cumDist_length pts]; omega)
    exact lt_of_le_of_lt hmono hpb
  obtain ⟨h1, h2, h3⟩ := countP_range_prefix ((cumDist pts).length - 1) _ hdc
  refine findSegAux_eq_of (cumDist pts) t _ ?_ _ 0 rfl (by omega) ?_
  · intro hc
    have hfalse := h3 hc.1
    rw [decide_eq_false_iff_not] at hfalse
    exact hfalse hc.2
  · intro k _ hkc
    refine ⟨by omega, ?_⟩
    have hk := h2 k hkc
    rwa [decide_eq_true_eq] at hk

/-- C4 counterexample: resampling a 2-point path of total length 1 at spacing
1 yields 3 points, not the `max(2, round(total/s)) = 2` points the claim
states (the output loop runs from 0 to n inclusive). -/
theorem C4_counterexample :
    (resamplePath [⟨0,0⟩, ⟨1,0⟩] 1).length = 3 ∧
    (3 : ℕ) ≠ (max 2 (round ((cumDist [⟨0,0⟩, ⟨1,0⟩]).getLastD 0 / 1))).toNat := by
  have hd : distance ⟨1,0⟩ ⟨0,0⟩ = 1 := by
    simp only [distance]
    norm_num [hypot_zero_right]
  have htot : (cumDist [⟨0,0⟩, ⟨1,0⟩]).getLastD 0 = 1 := by
    show (cumDist [⟨0,0⟩, (⟨1,0⟩ : Pt)]).getLastD 0 = 1
    rw [show cumDist [⟨0,0⟩, (⟨1,0⟩ : Pt)] = [0, 0 + distance ⟨1,0⟩ ⟨0,0⟩] from rfl, hd]
    norm_num [List.getLastD]
  constructor
  · rw [resamplePath_length _ _ (by simp), htot]
    norm_num
    decide
  · rw [htot]
    norm_num
    decide

/-- C4 (amended): for a path with at least 2 points and spacing `s > 0`,
`resamplePath` returns `max(2, round(totalArcLength/s)) + 1` points (one more
than the claim's count), the `i`-th point being the linear interpolation of
the original polyline at target arc length `(i/n) * totalArcLength` via
cumulative-distance lookup — so the points are evenly spaced by arc length. -/
theorem C4_resample_contract (pts : List Pt) (s : ℝ) (h2 : 2 ≤ pts.length) (hs : 0 < s) :
    (resamplePath pts s).length =
      (max 2 (round ((cumDist pts).getLastD 0 / s))).toNat + 1 ∧
    ∀ i, i < (resamplePath pts s).length →
      (resamplePath pts s).getD i default =
        arcInterp pts
          (((i : ℝ) / (((max 2 (round ((cumDist pts).getLastD 0 / s))).toNat : ℕ) : ℝ)) *
            (cumDist pts).getLastD 0) := by
  refine ⟨resamplePath_length pts s h2, ?_⟩
  intro i hi
  rw [resamplePath_length pts s h2] at hi
  rw [resamplePath, if_neg (by omega)]
  rw [range_map_getD _ _ default i hi]
  simp only [arcInterp]
  rw [findSegAux_cumDist_eq_countP]

/-- C4 witness: the amended contract at a concrete 2-point path and spacing 1. -/
theorem C4_resample_contract_witness :
    (resamplePath [⟨0,0⟩, ⟨1,0⟩] 1).length =
      (max 2 (round ((cumDist [⟨0,0⟩, ⟨1,0⟩]).getLastD 0 / 1))).toNat + 1 ∧
    ∀ i, i < (resamplePath [⟨0,0⟩, ⟨1,0⟩] 1).length →
      (resamplePath [⟨0,0⟩, ⟨1,0⟩] 1).getD i default =
        arcInterp [⟨0,0⟩, ⟨1,0⟩]
          (((i : ℝ) /
              (((max 2 (round ((cumDist [⟨0,0⟩, ⟨1,0⟩]).getLastD 0 / 1))).toNat : ℕ) : ℝ)) *
            (cumDist [⟨0,0⟩, ⟨1,0⟩]).getLastD 0) :=
  C4_resample_contract [⟨0,0⟩, ⟨1,0⟩] 1 (by simp) (by norm_num)

theorem cumFrom_getD_succ_eq :
    ∀ (l : List Pt) (acc : ℝ) (prev : Pt) (k : ℕ), k + 1 < l.length →
      (cumFrom acc prev l).getD (k + 1) 0 =
        (cumFrom acc prev l).getD k 0 + distance (l.getD (k + 1) default) (l.getD k default) := by
  intro l
  induction l with
  | nil => intro acc prev k hk; simp at hk
  | cons p ps ih =>
      intro acc prev k hk
      cases k with
      | zero =>
          cases ps with
          | nil => simp at hk
          | cons q qs =>
              show acc + distance p prev + distance q p =
                acc + distance p prev + distance q p
              rfl
      | succ k =>
          have h0 : (cumFrom acc prev (p :: ps)).getD (k + 2) 0 =
              (cumFrom (acc + distance p prev) p ps).getD (k + 1) 0 := rfl
          have h1 : (cumFrom acc prev (p :: ps)).getD (k + 1) 0 =
              (cumFrom (acc + distance p prev) p ps).getD k 0 := rfl
          rw [h0, h1, ih (acc + distance p prev) p k (by simpa using hk)]
          rfl

theorem cumDist_getD_succ_eq (pts : List Pt) (k : ℕ) (hk : k + 1 < pts.length) :
    (cumDist pts).getD (k + 1) 0 =
      (cumDist pts).getD k 0 + distance (pts.getD (k + 1) default) (pts.getD k default) := by
  cases pts with
  | nil => simp at hk
  | cons p ps =>
      cases k with
      | zero =>
          cases ps with
          | nil => simp at hk
          | cons q qs =>
              show 0 + distance q p = 0 + distance q p
              rfl
      | succ k =>
          have h0 : (cumDist (p :: ps)).getD (k + 2) 0 =
              (cumFrom 0 p ps).getD (k + 1) 0 := rfl
          have h1 : (cumDist (p :: ps)).getD (k + 1) 0 = (cumFrom 0 p ps).getD k 0 := rfl
          rw [h0, h1, cumFrom_getD_succ_eq ps 0 p k (by simpa using hk)]
          rfl

theorem cumDist_getD_uniform (pts : List Pt) (s : ℝ)
    (hu : ∀ i, i + 1 < pts.length → distance (pts.getD (i + 1) default) (pts.getD i default) = s) :
    ∀ k, k < pts.length → (cumDist pts).getD k 0 = (k : ℝ) * s := by
  intro k
  induction k with
  | zero =>
      intro hk
      cases pts with
      | nil => simp at hk
      | cons p ps =>
          have h0 : (cumDist (p :: ps)).getD 0 0 = 0 := rfl
          rw [h0]
          norm_num
  | succ k ih =>
      intro hk
      rw [cumDist_getD_succ_eq pts k hk, ih (by omega), hu k hk]
      push_cast
      ring

theorem resamplePath_getD_param (pts : List Pt) (s : ℝ) (h2 : 2 ≤ pts.length) (i j : ℕ)
    (hi : i < (max 2 (round ((cumDist pts).getLastD 0 / s))).toNat + 1)
    (hj : findSegAux (cumDist pts)
        (((i : ℝ) / (((max 2 (round ((cumDist pts).getLastD 0 / s))).toNat : ℕ) : ℝ)) *
          (cumDist pts).getLastD 0) 0 = j) :
    (resamplePath pts s).getD i default =
      ⟨(pts.getD j default).x + ((pts.getD (j + 1) default).x - (pts.getD j default).x) *
          ((((i : ℝ) / (((max 2 (round ((cumDist pts).getLastD 0 / s))).toNat : ℕ) : ℝ)) *
              (cumDist pts).getLastD 0 - (cumDist pts).getD j 0) /
            (if (cumDist pts).getD (j + 1) 0 - (cumDist pts).getD j 0 = 0 then 1
             else (cumDist pts).getD (j + 1) 0 - (cumDist pts).getD j 0)),
       (pts.getD j default).y + ((pts.getD (j + 1) default).y - (pts.getD j default).y) *
          ((((i : ℝ) / (((max 2 (round ((cumDist pts).getLastD 0 / s))).toNat : ℕ) : ℝ)) *
              (cumDist pts).getLastD 0 - (cumDist pts).getD j 0) /
            (if (cumDist pts).getD (j + 1) 0 - (cumDist pts).getD j 0 = 0 then 1
             else (cumDist pts).getD (j + 1) 0 - (cumDist pts).getD j 0))⟩ := by
  subst hj
  rw [resamplePath, if_neg (by omega), range_map_getD _ _ default i hi]

/-- C9 counterexample: a 2-point path uniformly spaced at spacing 1 resamples
to 3 points, not to the same point count. -/
theorem C9_counterexample :
    (∀ i, i + 1 < ([⟨0,0⟩, ⟨1,0⟩] : List Pt).length →
      distance (([⟨0,0⟩, ⟨1,0⟩] : List Pt).getD (i + 1) default)
        (([⟨0,0⟩, ⟨1,0⟩] : List Pt).getD i default) = 1) ∧
    (resamplePath [⟨0,0⟩, ⟨1,0⟩] 1).length ≠ ([⟨0,0⟩, ⟨1,0⟩] : List Pt).length := by
  have hd : distance ⟨1,0⟩ ⟨0,0⟩ = 1 := by
    simp only [distance]
    norm_num [hypot_zero_right]
  constructor
  · intro i hi
    have hi0 : i = 0 := by simp at hi; omega
    subst hi0
    simpa using hd
  · have htot : (cumDist [⟨0,0⟩, ⟨1,0⟩]).getLastD 0 = 1 := by
      show (cumDist [⟨0,0⟩, (⟨1,0⟩ : Pt)]).getLastD 0 = 1
      rw [show cumDist [⟨0,0⟩, (⟨1,0⟩ : Pt)] = [0, 0 + distance ⟨1,0⟩ ⟨0,0⟩] from rfl, hd]
      norm_num [List.getLastD]
    rw [resamplePath_length _ _ (by simp), htot]
    norm_num
    decide

/-- C9 (amended): resampling a uniformly spaced path of at least 3 points at
its own spacing `s > 0` returns exactly the same path (same point count and
identical points; a 2-point uniform path instead gains a midpoint because the
output count is floored at `max(2,·) + 1 = 3`). -/
theorem C9_resample_uniform (pts : List Pt) (s : ℝ) (h3 : 3 ≤ pts.length) (hs : 0 < s)
    (hu : ∀ i, i + 1 < pts.length →
      distance (pts.getD (i + 1) default) (pts.getD i default) = s) :
    resamplePath pts s = pts := by
  have hcum := cumDist_getD_uniform pts s hu
  have hlen_d : (cumDist pts).length = pts.length := cumDist_length pts
  have hne : cumDist pts ≠ [] := by
    intro hcon
    rw [hcon] at hlen_d
    simp at hlen_d
    omega
  have htot : (cumDist pts).getLastD 0 = ((pts.length - 1 : ℕ) : ℝ) * s := by
    rw [getLastD_eq_getD _ _ hne, hlen_d]
    exact hcum (pts.length - 1) (by omega)
  have hm1 : ((pts.length - 1 : ℕ) : ℝ) ≠ 0 := by
    have h0 : (0:ℝ) < ((pts.length - 1 : ℕ) : ℝ) := by
      exact_mod_cast (by omega : 0 < pts.length - 1)
    linarith
  have hdiv : (cumDist pts).getLastD 0 / s = ((pts.length - 1 : ℕ) : ℝ) := by
    rw [htot, mul_div_assoc, div_self (ne_of_gt hs), mul_one]
  have hround : (max 2 (round ((cumDist pts).getLastD 0 / s))).toNat = pts.length - 1 := by
    rw [hdiv, round_natCast]
    rw [max_eq_right (by exact_mod_cast (by omega : 2 ≤ pts.length - 1))]
    omega
  have hrl : (resamplePath pts s).length = pts.length := by
    rw [resamplePath_length pts s (by omega), hround]
    omega
  have hT : ∀ i : ℕ,
      ((i : ℝ) / (((max 2 (round ((cumDist pts).getLastD 0 / s))).toNat : ℕ) : ℝ)) *
        (cumDist pts).getLastD 0 = (i : ℝ) * s := by
    have hgen : ∀ (a b c : ℝ), b ≠ 0 → a / b * (b * c) = a * c := by
      intro a b c hb
      field_simp
      ring
    intro i
    rw [hround, htot]
    exact hgen _ _ _ hm1
  refine List.ext_getElem (by rw [hrl]) ?_
  intro i h1 h2
  rw [← List.getD_eq_getElem (resamplePath pts s) default h1,
      ← List.getD_eq_getElem pts default h2]
  have hi' : i < (max 2 (round ((cumDist pts).getLastD 0 / s))).toNat + 1 := by
    rw [hround]
    rw [hrl] at h1
    omega
  have him : i < pts.length := by rw [hrl] at h1; exact h1
  cases i with
  | zero =>
      have hj : findSegAux (cumDist pts)
          ((((0:ℕ) : ℝ) / (((max 2 (round ((cumDist pts).getLastD 0 / s))).toNat : ℕ) : ℝ)) *
            (cumDist pts).getLastD 0) 0 = 0 := by
        rw [hT 0]
        refine findSegAux_eq_of (cumDist pts) _ 0 ?_ 0 0 rfl le_rfl (by omega)
        rintro ⟨hlt, hval⟩
        rw [hcum 1 (by omega)] at hval
        push_cast at hval
        nlinarith
      rw [resamplePath_getD_param pts s (by omega) 0 0 hi' hj]
      rw [hT 0, hcum 0 (by omega)]
      apply Pt.ext_xy <;> simp
  | succ k =>
      have hj : findSegAux (cumDist pts)
          ((((k+1:ℕ) : ℝ) / (((max 2 (round ((cumDist pts).getLastD 0 / s))).toNat : ℕ) : ℝ)) *
            (cumDist pts).getLastD 0) 0 = k := by
        rw [hT (k+1)]
        refine findSegAux_eq_of (cumDist pts) _ k ?_ k 0 (by omega) (by omega) ?_
        · rintro ⟨hlt, hval⟩
          rw [hcum (k+1) him] at hval
          exact lt_irrefl _ hval
        · intro k' _ hk'
          refine ⟨by rw [hlen_d]; omega, ?_⟩
          rw [hcum (k'+1) (by omega)]
          have hlt : ((k'+1:ℕ) : ℝ) < ((k+1:ℕ) : ℝ) := by exact_mod_cast (by omega)
          exact mul_lt_mul_of_pos_right hlt hs
      rw [resamplePath_getD_param pts s (by omega) (k+1) k hi' hj]
      rw [hT (k+1), hcum (k+1) him, hcum k (by omega)]
      have hseg : ((k+1:ℕ) : ℝ) * s - ((k:ℕ) : ℝ) * s = s := by push_cast; ring
      rw [hseg, if_neg (ne_of_gt hs), div_self (ne_of_gt hs)]
      apply Pt.ext_xy <;> ring_nf

/-- C9 witness: a concrete uniform 3-point path is reproduced exactly. -/
theorem C9_resample_uniform_witness :
    resamplePath [⟨0,0⟩, ⟨1,0⟩, ⟨2,0⟩] 1 = [⟨0,0⟩, ⟨1,0⟩, ⟨2,0⟩] := by
  refine C9_resample_uniform [⟨0,0⟩, ⟨1,0⟩, ⟨2,0⟩] 1 (by simp) (by norm_num) ?_
  intro i hi
  have hi2 : i = 0 ∨ i = 1 := by simp at hi; omega
  rcases hi2 with h | h <;> subst h
  · show distance ⟨1,0⟩ ⟨0,0⟩ = 1
    simp only [distance]
    norm_num [hypot_zero_right]
  · show distance ⟨2,0⟩ ⟨1,0⟩ = 1
    simp only [distance]
    norm_num [hypot_zero_right]

theorem tryPerturb_bestTime_le (o : SimParams) (ns : List (ℝ × ℝ)) (al : List Bound)
    (iterations it : ℕ) (r1 r2 : ℝ) (s : OptState) :
    ((tryPerturb o ns al iterations it r1 r2 s).1).bestTime ≤ s.bestTime := by
  simp only [tryPerturb]
  split
  · split
    · rename_i sim heq hlt
      exact le_of_lt hlt
    · exact le_refl _
  · exact le_refl _

theorem tryPerturb_inv (o : SimParams) (ns : List (ℝ × ℝ)) (al : List Bound)
    (iterations it : ℕ) (r1 r2 : ℝ) (s : OptState)
    (hinv : ∃ sim, simulateLap s.candidate o = some sim ∧ sim.time = s.bestTime) :
    ∃ sim, simulateLap ((tryPerturb o ns al iterations it r1 r2 s).1).candidate o = some sim ∧
      sim.time = ((tryPerturb o ns al iterations it r1 r2 s).1).bestTime := by
  simp only [tryPerturb]
  split
  · rename_i sim heq
    split
    · exact ⟨sim, heq, rfl⟩
    · exact hinv
  · exact hinv

theorem tryStep_fst_bestTime_le (o : SimParams) (ns : List (ℝ × ℝ)) (al : List Bound)
    (iterations it : ℕ) (rnd : ℕ → ℝ × ℝ) (sb : OptState × Bool) (t : ℕ) :
    ((tryStep o ns al iterations it rnd sb t).1).bestTime ≤ sb.1.bestTime :=
  tryPerturb_bestTime_le o ns al iterations it _ _ sb.1

theorem tryStep_inv (o : SimParams) (ns : List (ℝ × ℝ)) (al : List Bound)
    (iterations it : ℕ) (rnd : ℕ → ℝ × ℝ) (sb : OptState × Bool) (t : ℕ)
    (hinv : ∃ sim, simulateLap sb.1.candidate o = some sim ∧ sim.time = sb.1.bestTime) :
    ∃ sim, simulateLap ((tryStep o ns al iterations it rnd sb t).1).candidate o = some sim ∧
      sim.time = ((tryStep o ns al iterations it rnd sb t).1).bestTime :=
  tryPerturb_inv o ns al iterations it _ _ sb.1 hinv

theorem foldl_tryStep_props (o : SimParams) (ns : List (ℝ × ℝ)) (al : List Bound)
    (iterations it : ℕ) (rnd : ℕ → ℝ × ℝ) :
    ∀ (l : List ℕ) (sb : OptState × Bool),
      ((l.foldl (tryStep o ns al iterations it rnd) sb).1).bestTime ≤ sb.1.bestTime ∧
      ((∃ sim, simulateLap sb.1.candidate o = some sim ∧ sim.time = sb.1.bestTime) →
        ∃ sim, simulateLap ((l.foldl (tryStep o ns al iterations it rnd) sb).1).candidate o
            = some sim ∧
          sim.time = ((l.foldl (tryStep o ns al iterations it rnd) sb).1).bestTime) := by
  intro l
  induction l with
  | nil => intro sb; exact ⟨le_refl _, fun h => h⟩
  | cons t ts ih =>
      intro sb
      rw [List.foldl_cons]
      obtain ⟨ih1, ih2⟩ := ih (tryStep o ns al iterations it rnd sb t)
      refine ⟨le_trans ih1 (tryStep_fst_bestTime_le o ns al iterations it rnd sb t),
        fun h => ih2 (tryStep_inv o ns al iterations it rnd sb t h)⟩

theorem runTries_bestTime_le (o : SimParams) (ns : List (ℝ × ℝ)) (al : List Bound)
    (iterations it : ℕ) (rnd : ℕ → ℝ × ℝ) (s : OptState) :
    ((runTries o ns al iterations it rnd s).1).bestTime ≤ s.bestTime :=
  (foldl_tryStep_props o ns al iterations it rnd (List.range 30) (s, false)).1

theorem runTries_inv (o : SimParams) (ns : List (ℝ × ℝ)) (al : List Bound)
    (iterations it : ℕ) (rnd : ℕ → ℝ × ℝ) (s : OptState)
    (hinv : ∃ sim, simulateLap s.candidate o = some sim ∧ sim.time = s.bestTime) :
    ∃ sim, simulateLap ((runTries o ns al iterations it rnd s).1).candidate o = some sim ∧
      sim.time = ((runTries o ns al iterations it rnd s).1).bestTime :=
  (foldl_tryStep_props o ns al iterations it rnd (List.range 30) (s, false)).2 hinv

theorem optLoop_props (o : SimParams) (ns : List (ℝ × ℝ)) (al : List Bound)
    (iterations : ℕ) (rnd : ℕ → ℝ × ℝ) :
    ∀ (rem it : ℕ) (s : OptState),
      (optLoop o ns al iterations rnd rem it s).bestTime ≤ s.bestTime ∧
      ((∃ sim, simulateLap s.candidate o = some sim ∧ sim.time = s.bestTime) →
        ∃ sim, simulateLap (optLoop o ns al iterations rnd rem it s).candidate o = some sim ∧
          sim.time = (optLoop o ns al iterations rnd rem it s).bestTime) := by
  intro rem
  induction rem with
  | zero => intro it s; exact ⟨le_refl _, fun h => h⟩
  | succ rem ih =>
      intro it s
      simp only [optLoop]
      split
      · exact ⟨runTries_bestTime_le o ns al iterations it rnd s,
          fun h => runTries_inv o ns al iterations it rnd s h⟩
      · obtain ⟨ih1, ih2⟩ := ih (it + 1) (runTries o ns al iterations it rnd s).1
        refine ⟨le_trans ih1 (runTries_bestTime_le o ns al iterations it rnd s),
          fun h => ih2 (runTries_inv o ns al iterations it rnd s h)⟩

theorem optimizeRacingLine_isSome (left right : List Pt) (o : SimParams) (iterations : ℕ)
    (rnd : ℕ → ℝ × ℝ) (hl : 2 ≤ left.length) (hr2 : 2 ≤ right.length) :
    ∃ fin bt, optimizeRacingLine left right o iterations rnd = some (fin, bt) := by
  have hc : 3 ≤ (centerFrom left right).length := by
    have h1 := resamplePath_length_ge left 3 hl
    have h2 := resamplePath_length_ge right 3 hr2
    simp only [centerFrom, List.length_map, List.length_range]
    exact le_min h1 h2
  have hseed : 2 ≤ (seedPath left right).length := by
    rw [seedPath, smoothPath_length _ _ hc, show (2:ℕ) ^ 3 = 8 from rfl]
    omega
  obtain ⟨r0, hr0⟩ := simulateLap_isSome (seedPath left right) o hseed
  refine ⟨(optLoop o (normalsOf (seedPath left right))
      (allowedOf (seedPath left right) (resamplePath left 3) (resamplePath right 3))
      iterations rnd iterations 0 ⟨seedPath left right, r0.time⟩).candidate,
    (optLoop o (normalsOf (seedPath left right))
      (allowedOf (seedPath left right) (resamplePath left 3) (resamplePath right 3))
      iterations rnd iterations 0 ⟨seedPath left right, r0.time⟩).bestTime, ?_⟩
  simp only [optimizeRacingLine]
  rw [hr0]

/-- C1: in every completed run of the racing-line optimizer, with any random
draw sequence, the tracked best lap time is non-increasing across each
iteration's batch of tries, and the simulated lap time of the returned racing
line equals the returned best time and is at most the simulated lap time of
the seed (smoothed centerline) path it started from. -/
theorem C1_optimizer_monotone (left right : List Pt) (o : SimParams) (iterations : ℕ)
    (rnd : ℕ → ℝ × ℝ) (fin : List Pt) (bt : ℝ)
    (hrun : optimizeRacingLine left right o iterations rnd = some (fin, bt)) :
    (∀ (ns : List (ℝ × ℝ)) (al : List Bound) (it : ℕ) (s : OptState),
      ((runTries o ns al iterations it rnd s).1).bestTime ≤ s.bestTime) ∧
    ∃ s0 sF, simulateLap (seedPath left right) o = some s0 ∧
      simulateLap fin o = some sF ∧ sF.time = bt ∧ bt ≤ s0.time := by
  constructor
  · intro ns al it s
    exact runTries_bestTime_le o ns al iterations it rnd s
  · simp only [optimizeRacingLine] at hrun
    cases hsim : simulateLap (seedPath left right) o with
    | none => rw [hsim] at hrun; exact absurd hrun (by simp)
    | some s0 =>
        rw [hsim] at hrun
        have hpair : (optLoop o (normalsOf (seedPath left right))
            (allowedOf (seedPath left right) (resamplePath left 3) (resamplePath right 3))
            iterations rnd iterations 0 ⟨seedPath left right, s0.time⟩).candidate = fin ∧
            (optLoop o (normalsOf (seedPath left right))
            (allowedOf (seedPath left right) (resamplePath left 3) (resamplePath right 3))
            iterations rnd iterations 0 ⟨seedPath left right, s0.time⟩).bestTime = bt := by
          have := Option.some.inj hrun
          exact ⟨congrArg Prod.fst this, congrArg Prod.snd this⟩
        obtain ⟨hle, hinv⟩ := optLoop_props o (normalsOf (seedPath left right))
          (allowedOf (seedPath left right) (resamplePath left 3) (resamplePath right 3))
          iterations rnd iterations 0 ⟨seedPath left right, s0.time⟩
        obtain ⟨simF, hsimF, htimeF⟩ := hinv ⟨s0, hsim, rfl⟩
        refine ⟨s0, simF, rfl, ?_, ?_, ?_⟩
        · rw [← hpair.1]; exact hsimF
        · rw [← hpair.2]; exact htimeF
        · rw [← hpair.2]; exact hle

/-- C1 witness: a completed zero-iteration run on concrete straight edges. -/
theorem C1_optimizer_monotone_witness :
    ∃ fin bt,
      optimizeRacingLine [⟨0,0⟩, ⟨3,0⟩] [⟨0,3⟩, ⟨3,3⟩] ⟨1, 1.6, 7.5, 8500, 22⟩ 0
        (fun _ => (0, 0)) = some (fin, bt) ∧
      ∃ s0 sF, simulateLap (seedPath [⟨0,0⟩, ⟨3,0⟩] [⟨0,3⟩, ⟨3,3⟩]) ⟨1, 1.6, 7.5, 8500, 22⟩
          = some s0 ∧
        simulateLap fin ⟨1, 1.6, 7.5, 8500, 22⟩ = some sF ∧ sF.time = bt ∧ bt ≤ s0.time := by
  obtain ⟨fin, bt, h⟩ := optimizeRacingLine_isSome [⟨0,0⟩, ⟨3,0⟩] [⟨0,3⟩, ⟨3,3⟩]
    ⟨1, 1.6, 7.5, 8500, 22⟩ 0 (fun _ => (0, 0)) (by simp) (by simp)
  exact ⟨fin, bt, h, (C1_optimizer_monotone [⟨0,0⟩, ⟨3,0⟩] [⟨0,3⟩, ⟨3,3⟩]
    ⟨1, 1.6, 7.5, 8500, 22⟩ 0 (fun _ => (0, 0)) fin bt h).2⟩

theorem rot_unit (tx ty : ℝ) (h : hypot tx ty ≠ 0) :
    (-ty / hypot tx ty) ^ 2 + (tx / hypot tx ty) ^ 2 = 1 := by
  have hsq : (hypot tx ty) ^ 2 = tx ^ 2 + ty ^ 2 := Real.sq_sqrt (by positivity)
  field_simp
  rw [hsq]
  ring

/-- C8: each corridor bound is `{min, max}` of the signed projections of the
paired (by fractional index) left and right edge points onto the sample's
local normal; whenever the neighboring-sample tangent is non-degenerate the
normal is exactly that tangent rotated 90° and normalized to unit length. -/
theorem C8_corridor_bounds (candidate left right : List Pt) (i : ℕ)
    (hi : i < candidate.length)
    (hl : pairIdx i left.length candidate.length < left.length)
    (hr2 : pairIdx i right.length candidate.length < right.length) :
    ((allowedOf candidate left right).getD i default).min =
      min (projOnNormal (left.getD (pairIdx i left.length candidate.length) default)
            (candidate.getD i default) ((normalsOf candidate).getD i default))
          (projOnNormal (right.getD (pairIdx i right.length candidate.length) default)
            (candidate.getD i default) ((normalsOf candidate).getD i default)) ∧
    ((allowedOf candidate left right).getD i default).max =
      max (projOnNormal (left.getD (pairIdx i left.length candidate.length) default)
            (candidate.getD i default) ((normalsOf candidate).getD i default))
          (projOnNormal (right.getD (pairIdx i right.length candidate.length) default)
            (candidate.getD i default) ((normalsOf candidate).getD i default)) ∧
    (hypot ((candidate.getD ((i + 1) % candidate.length) default).x -
            (candidate.getD ((i + candidate.length - 1) % candidate.length) default).x)
           ((candidate.getD ((i + 1) % candidate.length) default).y -
            (candidate.getD ((i + candidate.length - 1) % candidate.length) default).y) ≠ 0 →
      (normalsOf candidate).getD i default =
        (-((candidate.getD ((i + 1) % candidate.length) default).y -
            (candidate.getD ((i + candidate.length - 1) % candidate.length) default).y) /
          hypot ((candidate.getD ((i + 1) % candidate.length) default).x -
                 (candidate.getD ((i + candidate.length - 1) % candidate.length) default).x)
                ((candidate.getD ((i + 1) % candidate.length) default).y -
                 (candidate.getD ((i + candidate.length - 1) % candidate.length) default).y),
         ((candidate.getD ((i + 1) % candidate.length) default).x -
            (candidate.getD ((i + candidate.length - 1) % candidate.length) default).x) /
          hypot ((candidate.getD ((i + 1) % candidate.length) default).x -
                 (candidate.getD ((i + candidate.length - 1) % candidate.length) default).x)
                ((candidate.getD ((i + 1) % candidate.length) default).y -
                 (candidate.getD ((i + candidate.length - 1) % candidate.length) default).y)) ∧
      ((normalsOf candidate).getD i default).1 ^ 2 +
        ((normalsOf candidate).getD i default).2 ^ 2 = 1) := by
  have hnorm : (normalsOf candidate).getD i default =
      (-((candidate.getD ((i + 1) % candidate.length) default).y -
          (candidate.getD ((i + candidate.length - 1) % candidate.length) default).y) /
        (if hypot ((candidate.getD ((i + 1) % candidate.length) default).x -
                   (candidate.getD ((i + candidate.length - 1) % candidate.length) default).x)
                  ((candidate.getD ((i + 1) % candidate.length) default).y -
                   (candidate.getD ((i + candidate.length - 1) % candidate.length) default).y)
             = 0 then 1
         else hypot ((candidate.getD ((i + 1) % candidate.length) default).x -
                     (candidate.getD ((i + candidate.length - 1) % candidate.length) default).x)
                    ((candidate.getD ((i + 1) % candidate.length) default).y -
                     (candidate.getD ((i + candidate.length - 1) % candidate.length) default).y)),
       ((candidate.getD ((i + 1) % candidate.length) default).x -
          (candidate.getD ((i + candidate.length - 1) % candidate.length) default).x) /
        (if hypot ((candidate.getD ((i + 1) % candidate.length) default).x -
                   (candidate.getD ((i + candidate.length - 1) % candidate.length) default).x)
                  ((candidate.getD ((i + 1) % candidate.length) default).y -
                   (candidate.getD ((i + candidate.length - 1) % candidate.length) default).y)
             = 0 then 1
         else hypot ((candidate.getD ((i + 1) % candidate.length) default).x -
                     (candidate.getD ((i + candidate.length - 1) % candidate.length) default).x)
                    ((candidate.getD ((i + 1) % candidate.length) default).y -
                     (candidate.getD ((i + candidate.length - 1) % candidate.length) default).y))) := by
    rw [normalsOf, range_map_getD _ _ default i hi]
  refine ⟨?_, ?_, ?_⟩
  · rw [allowedOf, range_map_getD _ _ default i hi]
  · rw [allowedOf, range_map_getD _ _ default i hi]
  · intro hne
    rw [hnorm, if_neg hne]
    refine ⟨rfl, ?_⟩
    exact rot_unit _ _ hne


/-- C8 witness: the corridor bound at sample 0 of a concrete 3-point
candidate with singleton edge lists. -/
theorem C8_corridor_bounds_witness :
    ((allowedOf [⟨0,0⟩, ⟨1,0⟩, ⟨1,1⟩] [⟨0,1⟩] [⟨0,-1⟩]).getD 0 default).min =
      min (projOnNormal (([⟨0,1⟩] : List Pt).getD
              (pairIdx 0 ([⟨0,1⟩] : List Pt).length ([⟨0,0⟩, ⟨1,0⟩, ⟨1,1⟩] : List Pt).length)
              default)
            (([⟨0,0⟩, ⟨1,0⟩, ⟨1,1⟩] : List Pt).getD 0 default)
            ((normalsOf [⟨0,0⟩, ⟨1,0⟩, ⟨1,1⟩]).getD 0 default))
          (projOnNormal (([⟨0,-1⟩] : List Pt).getD
              (pairIdx 0 ([⟨0,-1⟩] : List Pt).length ([⟨0,0⟩, ⟨1,0⟩, ⟨1,1⟩] : List Pt).length)
              default)
            (([⟨0,0⟩, ⟨1,0⟩, ⟨1,1⟩] : List Pt).getD 0 default)
            ((normalsOf [⟨0,0⟩, ⟨1,0⟩, ⟨1,1⟩]).getD 0 default)) :=
  (C8_corridor_bounds [⟨0,0⟩, ⟨1,0⟩, ⟨1,1⟩] [⟨0,1⟩] [⟨0,-1⟩] 0 (by simp)
    (by norm_num [pairIdx]) (by norm_num [pairIdx])).1

theorem backwardRound_getLast (b : ℝ) :
    ∀ (ds vs : List ℝ), (backwardRound b ds vs).getLast? = vs.getLast? := by
  intro ds
  induction ds with
  | nil => intro vs; rw [backwardRound_nil_left]
  | cons dd ds ih =>
      intro vs
      cases vs with
      | nil => rw [backwardRound_nil_right]
      | cons x xs =>
          rw [backwardRound_cons]
          have hlen := backwardRound_length b ds xs
          cases hr : backwardRound b ds xs with
          | nil =>
              rw [hr] at hlen
              have hx : xs = [] := by
                cases xs with
                | nil => rfl
                | cons a as => simp at hlen
              subst hx
              rfl
          | cons y ys =>
              have hih := ih xs
              rw [hr] at hih hlen
              cases xs with
              | nil => simp at hlen
              | cons x' xs' =>
                  rw [List.getLast?_cons_cons, hih, List.getLast?_cons_cons]

theorem sqTest_dist : distList sqTestPath 1 = [100, 100, 100, 80, 20] := by
  rw [sqTestPath, distList]
  norm_num [List.range_succ, distance, hypot_zero_right, hypot_zero_left]

theorem sqrt_half_le_ten : Real.sqrt 0.5 ≤ 10 :=
  (Real.sqrt_le_left (by norm_num)).mpr (by norm_num)

theorem sqTest_limits :
    speedLimits sqTestPath sqTestParams =
      [Real.sqrt 0.5, Real.sqrt 0.5, Real.sqrt 0.5, Real.sqrt 0.5, 10] := by
  have hin0 : curvIn sqTestPath 0 = (0, -20) := by rw [sqTestPath]; simp [curvIn] <;> norm_num
  have hout0 : curvOut sqTestPath 0 = (100, 0) := by rw [sqTestPath]; simp [curvOut] <;> norm_num
  have hk0 : curvCross sqTestPath 0 / curvDenom sqTestPath 0 = 1 / 120 := by
    rw [curvCross, curvDenom, curvDenomRaw, hin0, hout0]
    norm_num [hypot_zero_right, hypot_zero_left]
  have hin1 : curvIn sqTestPath 1 = (100, 0) := by rw [sqTestPath]; simp [curvIn] <;> norm_num
  have hout1 : curvOut sqTestPath 1 = (0, 100) := by rw [sqTestPath]; simp [curvOut] <;> norm_num
  have hk1 : curvCross sqTestPath 1 / curvDenom sqTestPath 1 = 1 / 200 := by
    rw [curvCross, curvDenom, curvDenomRaw, hin1, hout1]
    norm_num [hypot_zero_right, hypot_zero_left]
  have hin2 : curvIn sqTestPath 2 = (0, 100) := by rw [sqTestPath]; simp [curvIn] <;> norm_num
  have hout2 : curvOut sqTestPath 2 = (-100, 0) := by rw [sqTestPath]; simp [curvOut] <;> norm_num
  have hk2 : curvCross sqTestPath 2 / curvDenom sqTestPath 2 = 1 / 200 := by
    rw [curvCross, curvDenom, curvDenomRaw, hin2, hout2]
    norm_num [hypot_zero_right, hypot_zero_left]
  have hin3 : curvIn sqTestPath 3 = (-100, 0) := by rw [sqTestPath]; simp [curvIn] <;> norm_num
  have hout3 : curvOut sqTestPath 3 = (0, -80) := by rw [sqTestPath]; simp [curvOut] <;> norm_num
  have hk3 : curvCross sqTestPath 3 / curvDenom sqTestPath 3 = 1 / 180 := by
    rw [curvCross, curvDenom, curvDenomRaw, hin3, hout3]
    norm_num [hypot_zero_right, hypot_zero_left]
  have hin4 : curvIn sqTestPath 4 = (0, -80) := by rw [sqTestPath]; simp [curvIn] <;> norm_num
  have hout4 : curvOut sqTestPath 4 = (0, -20) := by rw [sqTestPath]; simp [curvOut] <;> norm_num
  have hk4 : curvCross sqTestPath 4 / curvDenom sqTestPath 4 = 0 := by
    rw [curvCross, curvDenom, curvDenomRaw, hin4, hout4]
    norm_num [hypot_zero_right, hypot_zero_left]
  have hmin : min (Real.sqrt 0.5) (10:ℝ) = Real.sqrt 0.5 := min_eq_left sqrt_half_le_ten
  rw [speedLimits, curvMag, computeCurvature, List.map_map, List.map_map,
    show sqTestPath.length = 5 from rfl, show List.range 5 = [0, 1, 2, 3, 4] from rfl]
  simp only [List.map_cons, List.map_nil, Function.comp]
  rw [hk0, hk1, hk2, hk3, hk4]
  norm_num [sqTestParams, hmin]
  have hpos : (0:ℝ) < Real.sqrt 2 := Real.sqrt_pos.mpr (by norm_num)
  have h1 : (1:ℝ) ≤ Real.sqrt 2 := by
    rw [show (1:ℝ) = Real.sqrt 1 from Real.sqrt_one.symm]
    exact Real.sqrt_le_sqrt (by norm_num)
  have h2le : (Real.sqrt 2)⁻¹ ≤ (10:ℝ) := by
    rw [inv_eq_one_div, div_le_iff hpos]
    nlinarith
  refine ⟨?_, ?_, ?_⟩
  · rw [if_pos (show (1:ℝ) / 100000000 < |1 / 120| by rw [abs_of_pos] <;> norm_num)]
    exact min_eq_left h2le
  · rw [if_pos (show (1:ℝ) / 100000000 < |1 / 200| by rw [abs_of_pos] <;> norm_num)]
    exact min_eq_left h2le
  · rw [if_pos (show (1:ℝ) / 100000000 < |1 / 180| by rw [abs_of_pos] <;> norm_num)]
    exact min_eq_left h2le

theorem forwardPass_eq (path : List Pt) (o : SimParams) (l0 : ℝ) (ls : List ℝ)
    (h : speedLimits path o = l0 :: ls) :
    forwardPass path o =
      min l0 o.vTop ::
        forwardFrom o (aForward o) (min l0 o.vTop) ls (distList path o.pxToMeter) := by
  rw [forwardPass, h]

theorem sqTest_forward :
    forwardPass sqTestPath sqTestParams =
      [Real.sqrt 0.5, Real.sqrt 0.5, Real.sqrt 0.5, Real.sqrt 0.5, 10] := by
  have haF : aForward sqTestParams = 3.5 := by
    rw [aForward]
    norm_num [sqTestParams]
  have hms : Real.sqrt 0.5 * Real.sqrt 0.5 = 0.5 := Real.mul_self_sqrt (by norm_num)
  have hvTop : sqTestParams.vTop = 10 := rfl
  have hpx : sqTestParams.pxToMeter = 1 := rfl
  have hstep100 : min (min (Real.sqrt 0.5)
      (Real.sqrt (Real.sqrt 0.5 * Real.sqrt 0.5 + 2 * 3.5 * 100))) (10:ℝ) = Real.sqrt 0.5 := by
    rw [min_eq_left (Real.sqrt_le_sqrt (by rw [hms]; norm_num)), min_eq_left sqrt_half_le_ten]
  have hstep80 : min (min (10:ℝ)
      (Real.sqrt (Real.sqrt 0.5 * Real.sqrt 0.5 + 2 * 3.5 * 80))) (10:ℝ) = 10 := by
    rw [min_eq_left ((Real.le_sqrt' (by norm_num)).mpr (by rw [hms]; norm_num))]
    exact min_self 10
  rw [forwardPass_eq sqTestPath sqTestParams _ _ sqTest_limits, haF, hvTop, hpx, sqTest_dist,
    min_eq_left sqrt_half_le_ten]
  simp only [forwardFrom, hvTop]
  rw [hstep100, hstep100, hstep100, hstep80]

theorem sqTest_backward :
    backwardRound 1 [100, 100, 100, 80, 20]
      [Real.sqrt 0.5, Real.sqrt 0.5, Real.sqrt 0.5, Real.sqrt 0.5, 10] =
      [Real.sqrt 0.5, Real.sqrt 0.5, Real.sqrt 0.5, Real.sqrt 0.5, 10] := by
  have hms : Real.sqrt 0.5 * Real.sqrt 0.5 = 0.5 := Real.mul_self_sqrt (by norm_num)
  have b5 : backwardRound 1 [20] [10] = [10] := by
    rw [backwardRound_cons, backwardRound_nil_left]
  have b4 : backwardRound 1 [80, 20] [Real.sqrt 0.5, 10] = [Real.sqrt 0.5, 10] := by
    rw [backwardRound_cons, b5]
    show (if Real.sqrt (10 * 10 + 2 * 1 * 80) < Real.sqrt 0.5 then
        0 ⊔ Real.sqrt (10 * 10 + 2 * 1 * 80) else Real.sqrt 0.5) :: [10] = [Real.sqrt 0.5, 10]
    rw [if_neg (not_lt.mpr (Real.sqrt_le_sqrt (by norm_num)))]
  have b3 : backwardRound 1 [100, 80, 20] [Real.sqrt 0.5, Real.sqrt 0.5, 10] =
      [Real.sqrt 0.5, Real.sqrt 0.5, 10] := by
    rw [backwardRound_cons, b4]
    show (if Real.sqrt (Real.sqrt 0.5 * Real.sqrt 0.5 + 2 * 1 * 100) < Real.sqrt 0.5 then
        0 ⊔ Real.sqrt (Real.sqrt 0.5 * Real.sqrt 0.5 + 2 * 1 * 100) else Real.sqrt 0.5) ::
        [Real.sqrt 0.5, 10] = [Real.sqrt 0.5, Real.sqrt 0.5, 10]
    rw [if_neg (not_lt.mpr (Real.sqrt_le_sqrt (by rw [hms]; norm_num)))]
  have b2 : backwardRound 1 [100, 100, 80, 20]
      [Real.sqrt 0.5, Real.sqrt 0.5, Real.sqrt 0.5, 10] =
      [Real.sqrt 0.5, Real.sqrt 0.5, Real.sqrt 0.5, 10] := by
    rw [backwardRound_cons, b3]
    show (if Real.sqrt (Real.sqrt 0.5 * Real.sqrt 0.5 + 2 * 1 * 100) < Real.sqrt 0.5 then
        0 ⊔ Real.sqrt (Real.sqrt 0.5 * Real.sqrt 0.5 + 2 * 1 * 100) else Real.sqrt 0.5) ::
        [Real.sqrt 0.5, Real.sqrt 0.5, 10] = [Real.sqrt 0.5, Real.sqrt 0.5, Real.sqrt 0.5, 10]
    rw [if_neg (not_lt.mpr (Real.sqrt_le_sqrt (by rw [hms]; norm_num)))]
  rw [backwardRound_cons, b2]
  show (if Real.sqrt (Real.sqrt 0.5 * Real.sqrt 0.5 + 2 * 1 * 100) < Real.sqrt 0.5 then
      0 ⊔ Real.sqrt (Real.sqrt 0.5 * Real.sqrt 0.5 + 2 * 1 * 100) else Real.sqrt 0.5) ::
      [Real.sqrt 0.5, Real.sqrt 0.5, Real.sqrt 0.5, 10] =
      [Real.sqrt 0.5, Real.sqrt 0.5, Real.sqrt 0.5, Real.sqrt 0.5, 10]
  rw [if_neg (not_lt.mpr (Real.sqrt_le_sqrt (by rw [hms]; norm_num)))]

theorem sqTest_profile :
    lapProfile sqTestPath sqTestParams =
      [Real.sqrt 0.5, Real.sqrt 0.5, Real.sqrt 0.5, Real.sqrt 0.5, 10] := by
  have hb : sqTestParams.maxBrakeAccel = 1 := rfl
  have hpx : sqTestParams.pxToMeter = 1 := rfl
  rw [lapProfile, hb, hpx, sqTest_dist, sqTest_forward]
  rw [show (3:ℕ) = 2 + 1 from rfl, Function.iterate_succ_apply',
    show (2:ℕ) = 1 + 1 from rfl, Function.iterate_succ_apply', Function.iterate_one]
  show backwardRound 1 [100, 100, 100, 80, 20]
      (backwardRound 1 [100, 100, 100, 80, 20]
        (backwardRound 1 [100, 100, 100, 80, 20]
          [Real.sqrt 0.5, Real.sqrt 0.5, Real.sqrt 0.5, Real.sqrt 0.5, 10])) =
      [Real.sqrt 0.5, Real.sqrt 0.5, Real.sqrt 0.5, Real.sqrt 0.5, 10]
  rw [sqTest_backward, sqTest_backward, sqTest_backward]

/-- C10: the three backward braking rounds cap only indices `n-2` down to `0`
(each round preserves list length and never modifies the last entry), while
the loop-closing segment's distance does enter the total time sum; on a
concrete track the final profile violates the braking constraint
`v[n-1] ≤ sqrt(v[0]^2 + 2*brake*dist[n-1])` across the loop-closing segment,
showing that constraint is not enforced. -/
theorem C10_loop_closing_not_braked :
    (∀ (b : ℝ) (ds vs : List ℝ),
        (backwardRound b ds vs).length = vs.length ∧
        (backwardRound b ds vs).getLast? = vs.getLast?) ∧
    (∀ (path : List Pt) (o : SimParams) (r : SimResult), simulateLap path o = some r →
        r.time = ((r.dist.zip r.speedProfile).map (fun p => p.1 / max 0.1 p.2)).sum) ∧
    (∃ r, simulateLap sqTestPath sqTestParams = some r ∧
        r.dist.getD 4 0 = 20 ∧ (0:ℝ) < r.dist.getD 4 0 ∧
        Real.sqrt (r.speedProfile.getD 0 0 * r.speedProfile.getD 0 0 +
            2 * sqTestParams.maxBrakeAccel * r.dist.getD 4 0) < r.speedProfile.getD 4 0) := by
  refine ⟨fun b ds vs => ⟨backwardRound_length b ds vs, backwardRound_getLast b ds vs⟩, ?_, ?_⟩
  · intro path o r hr
    have h2 : 2 ≤ path.length := by
      by_contra hlen
      rw [simulateLap, if_pos (by omega)] at hr
      exact Option.noConfusion hr
    rw [simulateLap_eq path o h2] at hr
    have hr' := Option.some.inj hr
    subst hr'
    rfl
  · have hlen5 : 2 ≤ sqTestPath.length := by rw [sqTestPath]; simp
    obtain ⟨r, hr⟩ := simulateLap_isSome sqTestPath sqTestParams hlen5
    have hr2 := hr
    rw [simulateLap_eq sqTestPath sqTestParams hlen5] at hr2
    have hms : Real.sqrt 0.5 * Real.sqrt 0.5 = 0.5 := Real.mul_self_sqrt (by norm_num)
    have hpx : sqTestParams.pxToMeter = 1 := rfl
    have hbr : sqTestParams.maxBrakeAccel = 1 := rfl
    refine ⟨r, hr, ?_, ?_, ?_⟩ <;>
      rw [show r = ⟨lapTotalTime sqTestPath sqTestParams, lapProfile sqTestPath sqTestParams,
            distList sqTestPath sqTestParams.pxToMeter, speedLimits sqTestPath sqTestParams⟩
          from (Option.some.inj hr2).symm]
    · show (distList sqTestPath sqTestParams.pxToMeter).getD 4 0 = 20
      rw [hpx, sqTest_dist]
      norm_num
    · show (0:ℝ) < (distList sqTestPath sqTestParams.pxToMeter).getD 4 0
      rw [hpx, sqTest_dist]
      norm_num
    · show Real.sqrt ((lapProfile sqTestPath sqTestParams).getD 0 0 *
            (lapProfile sqTestPath sqTestParams).getD 0 0 +
          2 * sqTestParams.maxBrakeAccel *
            (distList sqTestPath sqTestParams.pxToMeter).getD 4 0) <
          (lapProfile sqTestPath sqTestParams).getD 4 0
      rw [hpx, hbr, sqTest_dist, sqTest_profile]
      show Real.sqrt (Real.sqrt 0.5 * Real.sqrt 0.5 + 2 * 1 * 20) < 10
      rw [hms]
      exact (Real.sqrt_lt' (by norm_num)).mpr (by norm_num)

/-- C10 witness: the total-time decomposition (which includes the loop-closing
segment's contribution) at the concrete test track. -/
theorem C10_loop_closing_not_braked_witness :
    ∃ r, simulateLap sqTestPath sqTestParams = some r ∧
      r.time = ((r.dist.zip r.speedProfile).map (fun p => p.1 / max 0.1 p.2)).sum := by
  obtain ⟨r, hr⟩ := simulateLap_isSome sqTestPath sqTestParams (by rw [sqTestPath]; simp)
  exact ⟨r, hr, C10_loop_closing_not_braked.2.1 sqTestPath sqTestParams r hr⟩
